import Mathlib

set_option maxRecDepth 100000

/-!
Verification development for a two-player UNO-lite rules engine.

The embedding below translates the engine's three modules (types, deck, game)
into Lean. TypeScript arrays become `List` (the "top" of a pile is the END of
the list, matching `push`/`pop`); `undefined`-able fields become `Option`;
the `Result<T>` convention becomes an explicit `Result` inductive; in-place
mutation becomes explicit state passing — every mutating operation returns the
post-call state together with its result, so that a failed call that has
already mutated the state is representable. `Date.now()` becomes an explicit
`tNow : Nat` argument; the injectable random source `() => number` becomes a
stream `Nat → ℚ` of values (the n-th call reads index n), which covers every
deterministic source returning values in [0,1).
-/

inductive UnoColor where
  | red
  | green
  | blue
  | yellow
deriving DecidableEq

/-- types.ts: `UNO_COLORS = ['red', 'green', 'blue', 'yellow']`. -/
def UNO_COLORS : List UnoColor := [.red, .green, .blue, .yellow]

/-- types.ts: `UNO_VALUES = [0,1,2,3,4,5,6,7,8,9]` (ranks as `Nat`). -/
def UNO_VALUES : List Nat := [0, 1, 2, 3, 4, 5, 6, 7, 8, 9]

structure Card where
  id : String
  color : UnoColor
  value : Nat
deriving DecidableEq

abbrev PlayerId := String
abbrev RoomId := String

inductive GamePhase where
  | waitingForPlayer
  | readyToStart
  | inProgress
  | finished
deriving DecidableEq

structure PlayerState where
  id : PlayerId
  hand : List Card
deriving DecidableEq

structure TurnState where
  activePlayerId : PlayerId
  hasDrawnCard : Bool
deriving DecidableEq

structure GameState where
  roomId : RoomId
  phase : GamePhase
  players : List PlayerState
  playerOrder : List PlayerId
  drawPile : List Card
  discardPile : List Card
  currentColor : Option UnoColor := none
  currentValue : Option Nat := none
  winnerId : Option PlayerId := none
  turn : Option TurnState := none
  createdAt : Nat
  updatedAt : Nat
deriving DecidableEq

inductive GameErrorCode where
  | GAME_NOT_READY
  | GAME_ALREADY_STARTED
  | PLAYER_ALREADY_JOINED
  | ROOM_FULL
  | NOT_ENOUGH_PLAYERS
  | NOT_PLAYER_TURN
  | INVALID_CARD
  | CARD_NOT_PLAYABLE
  | CARD_NOT_FOUND
  | MUST_DRAW_FIRST
  | ALREADY_DREW_CARD
  | NO_PLAYABLE_CARDS
  | DRAW_PILE_EMPTY
  | NO_CARDS_TO_DRAW
deriving DecidableEq

structure GameError where
  code : GameErrorCode
  message : String
deriving DecidableEq

/-- types.ts: `Result<T> = { ok: true; value: T } | { ok: false; error: GameError }`. -/
inductive Result (α : Type) where
  | ok (value : α)
  | err (error : GameError)
deriving DecidableEq

def Result.isOk {α : Type} : Result α → Bool
  | .ok _ => true
  | .err _ => false

def Result.errorOpt {α : Type} : Result α → Option GameError
  | .ok _ => none
  | .err e => some e

/-! ## Deck module (deck.ts) -/

/-- deck.ts: `RandomFn = () => number`, a caller-injected source of values in
[0,1); modelled as a stream of rationals read off one index per call. -/
def RandomFn := Nat → ℚ

/-- The id string `card-<n>` minted by `createDeck`'s counter. -/
def cardId (n : Nat) : String := "card-" ++ toString n

/-- deck.ts `createDeck`: for each color one rank-0 card, then two copies of
each rank 1–9, ids minted from a running counter. -/
def createDeck : List Card :=
  (UNO_COLORS.foldl (fun (acc : List Card × Nat) color =>
    let acc1 : List Card × Nat := (acc.1 ++ [⟨cardId acc.2, color, 0⟩], acc.2 + 1)
    UNO_VALUES.foldl (fun (acc2 : List Card × Nat) v =>
      if v = 0 then acc2
      else (acc2.1 ++ [⟨cardId acc2.2, color, v⟩, ⟨cardId (acc2.2 + 1), color, v⟩],
            acc2.2 + 2)) acc1) ([], 0)).1

/-- `Math.floor(random() * (i + 1))` — the index chosen by one Fisher–Yates step. -/
def randIndex (q : ℚ) (bound : Nat) : Nat := (q * (bound : ℚ)).floor.toNat

/-- One array swap `[copy[i], copy[j]] = [copy[j], copy[i]]`; for indices in
range it swaps the two positions, out-of-range indices leave the list as is
(the source only produces in-range indices for sources in [0,1)). -/
def listSwap {α : Type} (l : List α) (i j : Nat) : List α :=
  match l[i]?, l[j]? with
  | some a, some b => (l.set i b).set j a
  | _, _ => l

/-- The Fisher–Yates loop of deck.ts `shuffle`: `i` counts down, `k` is the
number of random values consumed so far. -/
def shuffleAux {α : Type} (random : RandomFn) : Nat → Nat → List α → List α
  | _, 0, copy => copy
  | k, i + 1, copy =>
      shuffleAux random (k + 1) i (listSwap copy (i + 1) (randIndex (random k) (i + 2)))

/-- deck.ts `shuffle`: copies the input and runs Fisher–Yates from the last
index down to 1 (the copy is implicit here since Lean lists are immutable). -/
def shuffle {α : Type} (items : List α) (random : RandomFn) : List α :=
  shuffleAux random 0 (items.length - 1) items

/-- deck.ts `drawTopCard`: `items.pop()` — removes and returns the last
element; on the empty list returns `none` and leaves the list empty. -/
def drawTopCard {α : Type} (l : List α) : Option α × List α :=
  match l.getLast? with
  | none => (none, l)
  | some c => (some c, l.dropLast)

/-! ## Rules module (game.ts) -/

def CARDS_PER_PLAYER : Nat := 7

/-- Index of the first element satisfying `p` (TS `Array.findIndex`, with
`none` for `-1`). -/
def firstIdx {α : Type} (p : α → Bool) : List α → Option Nat
  | [] => none
  | a :: as => if p a then some 0 else (firstIdx p as).map (· + 1)

/-- game.ts `findPlayerIndex`. -/
def findPlayerIndex (state : GameState) (playerId : PlayerId) : Option Nat :=
  firstIdx (fun player => decide (player.id = playerId)) state.players

/-- game.ts `getNextPlayerId`: next id in `playerOrder` after `currentId`,
wrapping; `currentId` itself when it is not in the order. -/
def getNextPlayerId (state : GameState) (currentId : PlayerId) : PlayerId :=
  match firstIdx (fun x => decide (x = currentId)) state.playerOrder with
  | none => currentId
  | some idx => state.playerOrder.getD ((idx + 1) % state.playerOrder.length) currentId

/-- game.ts `isCardPlayable`: color matches the current color or value matches
the current value (an undefined current color/value matches nothing). -/
def isCardPlayable (card : Card) (currentColor : Option UnoColor)
    (currentValue : Option Nat) : Bool :=
  decide (currentColor = some card.color) || decide (currentValue = some card.value)

/-- game.ts `ensureActivePlayer`: `none` when it is `playerId`'s turn. -/
def ensureActivePlayer (state : GameState) (playerId : PlayerId) : Option GameError :=
  match state.turn with
  | none => some ⟨.NOT_PLAYER_TURN, "Сейчас ход другого игрока."⟩
  | some turn =>
      if turn.activePlayerId = playerId then none
      else some ⟨.NOT_PLAYER_TURN, "Сейчас ход другого игрока."⟩

def defaultCard : Card := ⟨"", .red, 0⟩

def defaultPlayer : PlayerState := ⟨"", []⟩

/-- game.ts `replenishDrawPile`: keeps the discard top, shuffles the rest into
a new draw pile; fails with `NO_CARDS_TO_DRAW` when the discard pile has at
most one card. Returns the post-call state plus the optional error. -/
def replenishDrawPile (state : GameState) (random : RandomFn) :
    GameState × Option GameError :=
  if state.discardPile.length ≤ 1 then
    (state, some ⟨.NO_CARDS_TO_DRAW, "В колоде не осталось карт для добора."⟩)
  else
    let topCard := state.discardPile.getD (state.discardPile.length - 1) defaultCard
    let rest := state.discardPile.dropLast
    ({ state with drawPile := shuffle rest random, discardPile := [topCard] }, none)

/-- game.ts `createGame`. -/
def createGame (roomId : RoomId) (hostId : PlayerId) (tNow : Nat) : GameState :=
  { roomId := roomId
    phase := .waitingForPlayer
    players := [⟨hostId, []⟩]
    playerOrder := [hostId]
    drawPile := []
    discardPile := []
    createdAt := tNow
    updatedAt := tNow }

/-- game.ts `joinGame`. The success value in TS is the (aliased) mutated
state, returned here as the first component. -/
def joinGame (state : GameState) (playerId : PlayerId) (tNow : Nat) :
    GameState × Result Unit :=
  if state.phase ≠ .waitingForPlayer ∧ state.phase ≠ .readyToStart then
    (state, .err ⟨.GAME_ALREADY_STARTED, "Партия уже запущена."⟩)
  else if (findPlayerIndex state playerId).isSome then
    (state, .err ⟨.PLAYER_ALREADY_JOINED, "Игрок уже в комнате."⟩)
  else if 2 ≤ state.players.length then
    (state, .err ⟨.ROOM_FULL, "Комната рассчитана на двух игроков."⟩)
  else
    ({ state with
        players := state.players ++ [⟨playerId, []⟩]
        playerOrder := state.playerOrder ++ [playerId]
        phase := if state.players.length + 1 = 2 then .readyToStart else .waitingForPlayer
        updatedAt := tNow }, .ok ())

/-- `state.players[playerIndex]?.hand.push(card)` inside the deal loop of
`startGame`: appends the card to that player's hand; when the player is not
seated the optional chaining drops the card. -/
def giveCard (state : GameState) (playerId : PlayerId) (card : Card) : GameState :=
  match findPlayerIndex state playerId with
  | none => state
  | some i =>
      { state with
          players := state.players.set i
            (let p := state.players.getD i defaultPlayer
             { p with hand := p.hand ++ [card] }) }

/-- The inner `for (const playerId of state.playerOrder)` loop of `startGame`:
pops one card per listed player; the `Bool` is false when the deck ran out
(the TS early return with `DRAW_PILE_EMPTY`). -/
def dealRound : List PlayerId → GameState → List Card → GameState × List Card × Bool
  | [], state, deck => (state, deck, true)
  | playerId :: rest, state, deck =>
      match drawTopCard deck with
      | (none, deck') => (state, deck', false)
      | (some card, deck') => dealRound rest (giveCard state playerId card) deck'

/-- The outer `for (let i = 0; i < CARDS_PER_PLAYER; i += 1)` loop. -/
def dealRounds : Nat → GameState → List Card → GameState × List Card × Bool
  | 0, state, deck => (state, deck, true)
  | n + 1, state, deck =>
      match dealRound state.playerOrder state deck with
      | (state', deck', false) => (state', deck', false)
      | (state', deck', true) => dealRounds n state' deck'

/-- game.ts `startGame`: builds and shuffles a fresh deck, deals 7 cards per
player round-robin, flips the next card as the first discard, seats the first
player in turn order as active. `playerOrder[0]` can only be read when the
order is nonempty in every state the engine itself produces; the empty case
falls back to the empty id. -/
def startGame (state : GameState) (random : RandomFn) (tNow : Nat) :
    GameState × Result Unit :=
  if state.players.length < 2 then
    (state, .err ⟨.NOT_ENOUGH_PLAYERS, "Нужно два игрока для старта."⟩)
  else if state.phase = .inProgress ∨ state.phase = .finished then
    (state, .err ⟨.GAME_ALREADY_STARTED, "Партия уже запущена."⟩)
  else
    let deck := shuffle createDeck random
    match dealRounds CARDS_PER_PLAYER state deck with
    | (state', _, false) =>
        (state', .err ⟨.DRAW_PILE_EMPTY, "Не хватило карт для раздачи."⟩)
    | (state', deck', true) =>
        match drawTopCard deck' with
        | (none, _) =>
            (state', .err ⟨.DRAW_PILE_EMPTY, "В колоде нет карты для сброса."⟩)
        | (some firstDiscard, deck'') =>
            ({ state' with
                drawPile := deck''
                discardPile := [firstDiscard]
                currentColor := some firstDiscard.color
                currentValue := some firstDiscard.value
                phase := .inProgress
                winnerId := none
                turn := some ⟨state'.playerOrder.getD 0 "", false⟩
                updatedAt := tNow }, .ok ())

/-- game.ts `listPlayableCards` (read-only, so no state is returned). -/
def listPlayableCards (state : GameState) (playerId : PlayerId) : Result (List Card) :=
  if state.currentColor = none ∨ state.currentValue = none then
    .err ⟨.GAME_NOT_READY, "Партия ещё не началась."⟩
  else
    match findPlayerIndex state playerId with
    | none => .err ⟨.PLAYER_ALREADY_JOINED, "Игрок отсутствует в комнате."⟩
    | some i =>
        .ok ((state.players.getD i defaultPlayer).hand.filter
          (fun card => isCardPlayable card state.currentColor state.currentValue))

/-- game.ts `advanceTurn`. -/
def advanceTurn (state : GameState) : GameState :=
  match state.turn with
  | none => state
  | some turn =>
      { state with turn := some ⟨getNextPlayerId state turn.activePlayerId, false⟩ }

/-- game.ts `playCard`. -/
def playCard (state : GameState) (playerId : PlayerId) (cardIdArg : String)
    (tNow : Nat) : GameState × Result Unit :=
  if state.phase ≠ .inProgress then
    (state, .err ⟨.GAME_NOT_READY, "Партия ещё не запущена."⟩)
  else match ensureActivePlayer state playerId with
  | some e => (state, .err e)
  | none =>
    match findPlayerIndex state playerId with
    | none => (state, .err ⟨.PLAYER_ALREADY_JOINED, "Игрок отсутствует в комнате."⟩)
    | some playerIndex =>
      let player := state.players.getD playerIndex defaultPlayer
      match firstIdx (fun card => decide (card.id = cardIdArg)) player.hand with
      | none => (state, .err ⟨.CARD_NOT_FOUND, "Такой карты нет в руке."⟩)
      | some cardIndex =>
        let card := player.hand.getD cardIndex defaultCard
        if ¬ isCardPlayable card state.currentColor state.currentValue then
          (state, .err ⟨.CARD_NOT_PLAYABLE, "Эту карту нельзя сыграть сейчас."⟩)
        else
          let newHand := player.hand.eraseIdx cardIndex
          let state1 :=
            { state with
                players := state.players.set playerIndex { player with hand := newHand }
                discardPile := state.discardPile ++ [card]
                currentColor := some card.color
                currentValue := some card.value }
          if newHand.length = 0 then
            ({ state1 with
                phase := .finished
                winnerId := some playerId
                turn := none
                updatedAt := tNow }, .ok ())
          else
            ({ advanceTurn state1 with updatedAt := tNow }, .ok ())

/-- The test `playableBefore.ok && playableBefore.value.length > 0` guarding
`MUST_DRAW_FIRST` in `drawCard`. -/
def playableCheck (playableBefore : Result (List Card)) : Bool :=
  match playableBefore with
  | .ok playable => decide (0 < playable.length)
  | .err _ => false

/-- game.ts `drawCard`: the success value is the drawn card together with its
immediate playability (the TS `DrawCardResult` without the aliased state). -/
def drawCard (state : GameState) (playerId : PlayerId) (random : RandomFn)
    (tNow : Nat) : GameState × Result (Card × Bool) :=
  if state.phase ≠ .inProgress then
    (state, .err ⟨.GAME_NOT_READY, "Партия ещё не запущена."⟩)
  else match ensureActivePlayer state playerId with
  | some e => (state, .err e)
  | none =>
    match state.turn with
    | none => (state, .err ⟨.GAME_NOT_READY, "Состояние хода не определено."⟩)
    | some turn =>
      if turn.hasDrawnCard then
        (state, .err ⟨.ALREADY_DREW_CARD, "За ход можно взять только одну карту."⟩)
      else if playableCheck (listPlayableCards state playerId) then
        (state, .err ⟨.MUST_DRAW_FIRST, "Есть доступные ходы — сыграйте карту."⟩)
      else
        let repl := if state.drawPile.length = 0
          then replenishDrawPile state random else (state, none)
        match repl.2 with
        | some e => (repl.1, .err e)
        | none =>
          match drawTopCard repl.1.drawPile with
          | (none, pile') =>
              ({ repl.1 with drawPile := pile' },
               .err ⟨.DRAW_PILE_EMPTY, "Невозможно взять карту из колоды."⟩)
          | (some card, pile') =>
            let state2 := { repl.1 with drawPile := pile' }
            match findPlayerIndex state2 playerId with
            | none =>
                (state2, .err ⟨.PLAYER_ALREADY_JOINED, "Игрок отсутствует в комнате."⟩)
            | some playerIndex =>
              let player := state2.players.getD playerIndex defaultPlayer
              (({ state2 with
                  players := state2.players.set playerIndex
                    { player with hand := player.hand ++ [card] }
                  turn := some ⟨turn.activePlayerId, true⟩
                  updatedAt := tNow }),
               .ok (card, isCardPlayable card state2.currentColor state2.currentValue))

/-- game.ts `passTurn`. -/
def passTurn (state : GameState) (playerId : PlayerId) (tNow : Nat) :
    GameState × Result Unit :=
  if state.phase ≠ .inProgress then
    (state, .err ⟨.GAME_NOT_READY, "Партия ещё не запущена."⟩)
  else match ensureActivePlayer state playerId with
  | some e => (state, .err e)
  | none =>
    if ¬ ((state.turn.map TurnState.hasDrawnCard).getD false) then
      (state, .err ⟨.MUST_DRAW_FIRST, "Нужно взять карту прежде чем передать ход."⟩)
    else
      ({ advanceTurn state with updatedAt := tNow }, .ok ())

/-! ## Operations as a single step relation, reachability, and invariants -/

/-- One call to a mutating engine operation (the five fallible ones). -/
inductive EngineOp where
  | join (playerId : PlayerId)
  | start (random : RandomFn)
  | play (playerId : PlayerId) (cardIdArg : String)
  | draw (playerId : PlayerId) (random : RandomFn)
  | pass (playerId : PlayerId)

/-- Runs one operation, keeping the post-call state and the optional error. -/
def runOp (op : EngineOp) (state : GameState) (tNow : Nat) :
    GameState × Option GameError :=
  match op with
  | .join pid => let r := joinGame state pid tNow; (r.1, r.2.errorOpt)
  | .start random => let r := startGame state random tNow; (r.1, r.2.errorOpt)
  | .play pid cid => let r := playCard state pid cid tNow; (r.1, r.2.errorOpt)
  | .draw pid random => let r := drawCard state pid random tNow; (r.1, r.2.errorOpt)
  | .pass pid => let r := passTurn state pid tNow; (r.1, r.2.errorOpt)

/-- Pre-start states the engine itself can produce: `createGame` followed by
any successful `joinGame` calls. -/
inductive LobbyReachable : GameState → Prop where
  | create (roomId : RoomId) (hostId : PlayerId) (tNow : Nat) :
      LobbyReachable (createGame roomId hostId tNow)
  | join {s s' : GameState} (playerId : PlayerId) (tNow : Nat) :
      LobbyReachable s → joinGame s playerId tNow = (s', .ok ()) →
      LobbyReachable s'

/-- Started states: a successful `startGame` from a reachable lobby followed
by any sequence of successful `playCard` / `drawCard` / `passTurn` calls. -/
inductive Reachable : GameState → Prop where
  | start {s s' : GameState} (random : RandomFn) (tNow : Nat) :
      LobbyReachable s → startGame s random tNow = (s', .ok ()) →
      Reachable s'
  | play {s s' : GameState} (playerId : PlayerId) (cardIdArg : String) (tNow : Nat) :
      Reachable s → playCard s playerId cardIdArg tNow = (s', .ok ()) →
      Reachable s'
  | draw {s s' : GameState} (playerId : PlayerId) (random : RandomFn) (tNow : Nat)
      (info : Card × Bool) :
      Reachable s → drawCard s playerId random tNow = (s', .ok info) →
      Reachable s'
  | pass {s s' : GameState} (playerId : PlayerId) (tNow : Nat) :
      Reachable s → passTurn s playerId tNow = (s', .ok ()) →
      Reachable s'

/-- All cards in the game, as a multiset: every hand, then draw pile, then
discard pile. -/
def cardMultiset (state : GameState) : Multiset Card :=
  ((state.players.map PlayerState.hand).flatten ++ state.drawPile ++ state.discardPile : List Card)

/-- The canonical 76-card composition as stated by the spec: for each of the
4 colors, one rank-0 card and two cards of each rank 1 through 9. -/
def canonicalComposition : Multiset (UnoColor × Nat) :=
  ((UNO_COLORS.map (fun c =>
    (c, 0) :: (List.range 9).flatMap (fun k => [(c, k + 1), (c, k + 1)]))).flatten : List (UnoColor × Nat))

/-- Position of a phase along the forward-only lifecycle. -/
def phaseIdx : GamePhase → Nat
  | .waitingForPlayer => 0
  | .readyToStart => 1
  | .inProgress => 2
  | .finished => 3

/-- The game has started (phase `in-progress` or `finished`). -/
def phaseStarted (state : GameState) : Prop :=
  state.phase = .inProgress ∨ state.phase = .finished

/-- Demo run: the constant-zero random source. -/
def rand0 : RandomFn := fun _ => 0

def demoCreated : GameState := createGame "R1" "alice" 0

def demoLobby : GameState := (joinGame demoCreated "bob" 1).1

def demoStarted : GameState := (startGame demoLobby rand0 2).1

/-- The constant-zero source always picks swap index 0. -/
theorem randIndex_zero (b : Nat) : randIndex 0 b = 0 := by
  unfold randIndex
  rw [zero_mul]
  rfl

theorem randIndex_rand0 (k b : Nat) : randIndex (rand0 k) b = 0 := randIndex_zero b

/-! ## List-level lemmas -/

theorem firstIdx_none_iff {α : Type} (p : α → Bool) :
    ∀ l : List α, firstIdx p l = none ↔ ∀ x ∈ l, p x = false := by
  intro l
  induction l with
  | nil => simp [firstIdx]
  | cons a as ih =>
    constructor
    · intro h x hx
      by_cases hp : p a
      · unfold firstIdx at h
        simp [hp] at h
      · rcases List.mem_cons.mp hx with rfl | hx2
        · simpa using hp
        · refine (ih.mp ?_) x hx2
          unfold firstIdx at h
          simp [hp] at h
          cases hfi : firstIdx p as with
          | none => rfl
          | some j => rw [hfi] at h; simp at h
    · intro h
      have hpa : p a = false := h a (List.mem_cons_self a as)
      have hrest : firstIdx p as = none :=
        ih.mpr (fun x hx => h x (List.mem_cons_of_mem a hx))
      unfold firstIdx
      simp [hpa, hrest]

theorem firstIdx_split {α : Type} (p : α → Bool) :
    ∀ (l : List α) (i : Nat), firstIdx p l = some i →
      ∃ pre a post, l = pre ++ a :: post ∧ pre.length = i ∧ p a = true ∧
        ∀ x ∈ pre, p x = false := by
  intro l
  induction l with
  | nil => intro i h; simp [firstIdx] at h
  | cons a as ih =>
    intro i h
    by_cases hp : p a
    · have h0 : i = 0 := by
        unfold firstIdx at h
        simp [hp] at h
        omega
      subst h0
      exact ⟨[], a, as, rfl, rfl, hp, by simp⟩
    · unfold firstIdx at h
      simp [hp] at h
      obtain ⟨j, hj, hji⟩ := h
      subst hji
      obtain ⟨pre, b, post, hl, hlen, hb, hpre⟩ := ih j hj
      subst hl
      refine ⟨a :: pre, b, post, rfl, by simp [hlen], hb, ?_⟩
      intro x hx
      rcases List.mem_cons.mp hx with rfl | hx
      · simpa using hp
      · exact hpre x hx

theorem firstIdx_lt_length {α : Type} {p : α → Bool} {l : List α} {i : Nat}
    (h : firstIdx p l = some i) : i < l.length := by
  obtain ⟨pre, a, post, rfl, hlen, -, -⟩ := firstIdx_split p l i h
  have hlen2 : (pre ++ a :: post).length = pre.length + post.length + 1 := by
    simp
    omega
  omega

theorem firstIdx_isSome_of_mem {α : Type} (p : α → Bool) {l : List α} {a : α}
    (ha : a ∈ l) (hp : p a = true) : (firstIdx p l).isSome := by
  induction l with
  | nil => cases ha
  | cons b bs ih =>
    by_cases hb : p b
    · simp [firstIdx, hb]
    · rcases List.mem_cons.mp ha with rfl | ha2
      · exact absurd hp (by simpa using hb)
      · have := ih ha2
        cases hfi : firstIdx p bs with
        | none => rw [hfi] at this; simp at this
        | some j => unfold firstIdx; simp [hb, hfi]

theorem firstIdx_map {α β : Type} (p : β → Bool) (f : α → β) :
    ∀ l : List α, firstIdx (fun x => p (f x)) l = firstIdx p (l.map f) := by
  intro l
  induction l with
  | nil => rfl
  | cons a as ih => by_cases h : p (f a) <;> simp [firstIdx, h, ih]

theorem set_append_cons {α : Type} (pre : List α) (a b : α) (post : List α) :
    (pre ++ a :: post).set pre.length b = pre ++ b :: post := by
  induction pre with
  | nil => rfl
  | cons x xs ih => simp [List.set, ih]

theorem getD_append_cons {α : Type} (pre : List α) (a : α) (post : List α) (d : α) :
    (pre ++ a :: post).getD pre.length d = a := by
  induction pre with
  | nil => rfl
  | cons x xs ih => simpa using ih

theorem getD_cons_eraseIdx_perm {α : Type} :
    ∀ (l : List α) (k : Nat) (d : α), k < l.length →
      ((l.getD k d) :: l.eraseIdx k).Perm l := by
  intro l
  induction l with
  | nil => intro k d h; simp at h
  | cons a as ih =>
    intro k d h
    cases k with
    | zero => simpa using List.Perm.refl (a :: as)
    | succ k =>
      have hk : k < as.length := by simpa using h
      have h1 : (a :: as).getD (k + 1) d :: (a :: as).eraseIdx (k + 1)
          = as.getD k d :: a :: as.eraseIdx k := by simp [List.getD]
      rw [h1]
      exact (List.Perm.swap a (as.getD k d) _).trans ((ih k d hk).cons a)

theorem cons_set_perm {α : Type} :
    ∀ (l : List α) (j : Nat) (b x : α), l[j]? = some b →
      (b :: l.set j x).Perm (x :: l) := by
  intro l
  induction l with
  | nil => intro j b x h; simp at h
  | cons y ys ih =>
    intro j b x h
    cases j with
    | zero =>
      have hb : y = b := by simpa using h
      subst hb
      simpa using List.Perm.swap x y ys
    | succ j =>
      have hj : ys[j]? = some b := by simpa using h
      have h1 : (b :: (y :: ys).set (j + 1) x) = b :: y :: ys.set j x := by simp
      rw [h1]
      exact ((List.Perm.swap y b _).trans ((ih j b x hj).cons y)).trans
        (List.Perm.swap x y ys)

theorem set_set_swap_perm {α : Type} :
    ∀ (l : List α) (i j : Nat) (a b : α),
      l[i]? = some a → l[j]? = some b →
      ((l.set i b).set j a).Perm l := by
  intro l
  induction l with
  | nil => intro i j a b hi _; simp at hi
  | cons x xs ih =>
    intro i j a b hi hj
    cases i with
    | zero =>
      have hx : x = a := by simpa using hi
      subst hx
      cases j with
      | zero =>
        have hx2 : x = b := by simpa using hj
        subst hx2
        simpa using List.Perm.refl (x :: xs)
      | succ j =>
        have hj2 : xs[j]? = some b := by simpa using hj
        have h1 : ((x :: xs).set 0 b).set (j + 1) x = b :: xs.set j x := by simp
        rw [h1]
        exact cons_set_perm xs j b x hj2
    | succ i =>
      have hi2 : xs[i]? = some a := by simpa using hi
      cases j with
      | zero =>
        have hx : x = b := by simpa using hj
        subst hx
        have h1 : ((x :: xs).set (i + 1) x).set 0 a = a :: xs.set i x := by simp
        rw [h1]
        exact cons_set_perm xs i a x hi2
      | succ j =>
        have hj2 : xs[j]? = some b := by simpa using hj
        have h1 : ((x :: xs).set (i + 1) b).set (j + 1) a
            = x :: (xs.set i b).set j a := by simp
        rw [h1]
        exact (ih i j a b hi2 hj2).cons x

theorem listSwap_perm {α : Type} (l : List α) (i j : Nat) :
    (listSwap l i j).Perm l := by
  unfold listSwap
  cases hi : l[i]? with
  | none => exact List.Perm.refl l
  | some a =>
    cases hj : l[j]? with
    | none => exact List.Perm.refl l
    | some b => exact set_set_swap_perm l i j a b hi hj

theorem shuffleAux_perm {α : Type} (random : RandomFn) :
    ∀ (i k : Nat) (copy : List α), (shuffleAux random k i copy).Perm copy := by
  intro i
  induction i with
  | zero => intro k copy; exact List.Perm.refl copy
  | succ i ih =>
    intro k copy
    exact (ih (k + 1) _).trans (listSwap_perm _ _ _)

/-- deck.ts `shuffle` returns a permutation of its input. -/
theorem shuffle_perm {α : Type} (items : List α) (random : RandomFn) :
    (shuffle items random).Perm items :=
  shuffleAux_perm random _ 0 items

theorem shuffle_length {α : Type} (items : List α) (random : RandomFn) :
    (shuffle items random).length = items.length :=
  (shuffle_perm items random).length_eq

theorem drawTopCard_concat {α : Type} (l : List α) (a : α) :
    drawTopCard (l ++ [a]) = (some a, l) := by
  simp [drawTopCard]

theorem drawTopCard_rev_nil {α : Type} {l : List α} (h : l.reverse = []) :
    drawTopCard l = (none, l) := by
  have : l = [] := by simpa using congrArg List.reverse h
  subst this
  rfl

theorem drawTopCard_rev_cons {α : Type} {l : List α} {a : α} {r : List α}
    (h : l.reverse = a :: r) : drawTopCard l = (some a, r.reverse) := by
  have : l = r.reverse ++ [a] := by
    have := congrArg List.reverse h
    simpa using this
  subst this
  exact drawTopCard_concat _ _

/-! ## Deal-loop analysis -/

/-- All cards held in hands, in player order. -/
def handsL (state : GameState) : List Card :=
  (state.players.map PlayerState.hand).flatten

/-- `dealRound`, reformulated on the reversed deck (pops become head takes). -/
def dealRoundRev : List PlayerId → GameState → List Card → GameState × List Card × Bool
  | [], state, rdeck => (state, rdeck, true)
  | playerId :: rest, state, rdeck =>
      match rdeck with
      | [] => (state, [], false)
      | card :: rdeck' => dealRoundRev rest (giveCard state playerId card) rdeck'

/-- `dealRounds`, reformulated on the reversed deck. -/
def dealRoundsRev : Nat → GameState → List Card → GameState × List Card × Bool
  | 0, state, rdeck => (state, rdeck, true)
  | n + 1, state, rdeck =>
      match dealRoundRev state.playerOrder state rdeck with
      | (state', rdeck', false) => (state', rdeck', false)
      | (state', rdeck', true) => dealRoundsRev n state' rdeck'

theorem dealRound_rev_eq :
    ∀ (pids : List PlayerId) (s : GameState) (deck : List Card),
      dealRound pids s deck =
        ((dealRoundRev pids s deck.reverse).1,
         (dealRoundRev pids s deck.reverse).2.1.reverse,
         (dealRoundRev pids s deck.reverse).2.2) := by
  intro pids
  induction pids with
  | nil => intro s deck; simp [dealRound, dealRoundRev]
  | cons pid rest ih =>
    intro s deck
    cases hrev : deck.reverse with
    | nil =>
      have hdeck : deck = [] := by simpa using congrArg List.reverse hrev
      subst hdeck
      simp [dealRound, dealRoundRev, drawTopCard]
    | cons a r =>
      have hdt : drawTopCard deck = (some a, r.reverse) := drawTopCard_rev_cons hrev
      simp [dealRound, dealRoundRev, hdt, ih]

theorem dealRounds_rev_eq :
    ∀ (n : Nat) (s : GameState) (deck : List Card),
      dealRounds n s deck =
        ((dealRoundsRev n s deck.reverse).1,
         (dealRoundsRev n s deck.reverse).2.1.reverse,
         (dealRoundsRev n s deck.reverse).2.2) := by
  intro n
  induction n with
  | zero => intro s deck; simp [dealRounds, dealRoundsRev]
  | succ n ih =>
    intro s deck
    rcases hdr : dealRoundRev s.playerOrder s deck.reverse with ⟨s2, r2, ok⟩
    have hstep : dealRound s.playerOrder s deck = (s2, r2.reverse, ok) := by
      rw [dealRound_rev_eq, hdr]
    cases ok with
    | false => simp [dealRounds, dealRoundsRev, hstep, hdr]
    | true => simp [dealRounds, dealRoundsRev, hstep, hdr, ih s2 r2.reverse]

theorem findPlayerIndex_eq_ids (s : GameState) (pid : PlayerId) :
    findPlayerIndex s pid =
      firstIdx (fun x => decide (x = pid)) (s.players.map PlayerState.id) := by
  unfold findPlayerIndex
  rw [← firstIdx_map]

theorem findPlayerIndex_players_congr {s s' : GameState}
    (h : s'.players.map PlayerState.id = s.players.map PlayerState.id)
    (pid : PlayerId) : findPlayerIndex s' pid = findPlayerIndex s pid := by
  rw [findPlayerIndex_eq_ids, findPlayerIndex_eq_ids, h]

theorem findPlayerIndex_split {s : GameState} {pid : PlayerId} {i : Nat}
    (h : findPlayerIndex s pid = some i) :
    ∃ pre a post, s.players = pre ++ a :: post ∧ pre.length = i ∧ a.id = pid ∧
      ∀ x ∈ pre, x.id ≠ pid := by
  unfold findPlayerIndex at h
  obtain ⟨pre, a, post, hsplit, hlen, ha, hpre⟩ := firstIdx_split _ _ _ h
  exact ⟨pre, a, post, hsplit, hlen, by simpa using ha,
    fun x hx => by simpa using hpre x hx⟩

theorem giveCard_shape (s : GameState) (pid : PlayerId) (c : Card) :
    ∃ ps, giveCard s pid c = { s with players := ps } ∧
      ps.map PlayerState.id = s.players.map PlayerState.id := by
  cases hf : findPlayerIndex s pid with
  | none =>
    refine ⟨s.players, ?_, rfl⟩
    unfold giveCard
    rw [hf]
  | some i =>
    obtain ⟨pre, a, post, hsplit, hlen, -, -⟩ := findPlayerIndex_split hf
    refine ⟨s.players.set i
      (let p := s.players.getD i defaultPlayer
       { p with hand := p.hand ++ [c] }), ?_, ?_⟩
    · unfold giveCard
      rw [hf]
    · subst hlen
      rw [hsplit]
      simp only [getD_append_cons, set_append_cons]
      simp

theorem giveCard_handsL (s : GameState) (pid : PlayerId) (c : Card)
    (h : (findPlayerIndex s pid).isSome) :
    (handsL (giveCard s pid c)).Perm (c :: handsL s) := by
  cases hf : findPlayerIndex s pid with
  | none => rw [hf] at h; simp at h
  | some i =>
    obtain ⟨pre, a, post, hsplit, hlen, -, -⟩ := findPlayerIndex_split hf
    have hg : giveCard s pid c = { s with players :=
        (s.players.set i
          ((fun p => { p with hand := p.hand ++ [c] }) (s.players.getD i defaultPlayer))) } := by
      unfold giveCard
      rw [hf]
    rw [hg]
    subst hlen
    unfold handsL
    rw [hsplit]
    simp only [getD_append_cons, set_append_cons]
    simp only [List.map_append, List.map_cons, List.flatten_append, List.flatten_cons]
    have h1 : (pre.map PlayerState.hand).flatten ++ ((a.hand ++ [c]) ++
        (post.map PlayerState.hand).flatten) =
        ((pre.map PlayerState.hand).flatten ++ a.hand) ++ c ::
        (post.map PlayerState.hand).flatten := by simp
    have h2 : c :: ((pre.map PlayerState.hand).flatten ++ (a.hand ++
        (post.map PlayerState.hand).flatten)) =
        c :: (((pre.map PlayerState.hand).flatten ++ a.hand) ++
        (post.map PlayerState.hand).flatten) := by simp
    rw [h1, h2]
    exact List.perm_middle

theorem dealRoundRev_spec :
    ∀ (pids : List PlayerId) (s : GameState) (r : List Card),
      (∀ pid ∈ pids, (findPlayerIndex s pid).isSome) →
      pids.length ≤ r.length →
      ∃ s', dealRoundRev pids s r = (s', r.drop pids.length, true) ∧
        (handsL s' ++ r.drop pids.length).Perm (handsL s ++ r) ∧
        (∃ ps, s' = { s with players := ps }) ∧
        s'.players.map PlayerState.id = s.players.map PlayerState.id := by
  intro pids
  induction pids with
  | nil =>
    intro s r _ _
    exact ⟨s, rfl, by simpa using List.Perm.refl (handsL s ++ r), ⟨s.players, rfl⟩, rfl⟩
  | cons pid rest ih =>
    intro s r hseated hlen
    cases r with
    | nil => simp at hlen
    | cons c r' =>
      have hs1 : (findPlayerIndex s pid).isSome := hseated pid (by simp)
      obtain ⟨ps1, hg, hid1⟩ := giveCard_shape s pid c
      have hperm1 : (handsL (giveCard s pid c)).Perm (c :: handsL s) :=
        giveCard_handsL s pid c hs1
      have hid' : (giveCard s pid c).players.map PlayerState.id =
          s.players.map PlayerState.id := by rw [hg]; exact hid1
      have hseated1 : ∀ q ∈ rest, (findPlayerIndex (giveCard s pid c) q).isSome :=
        fun q hq => by
          rw [findPlayerIndex_players_congr hid' q]
          exact hseated q (by simp [hq])
      have hlen' : rest.length ≤ r'.length := by simpa using hlen
      obtain ⟨s', hdeal, hperm, ⟨ps2, hshape⟩, hids⟩ :=
        ih (giveCard s pid c) r' hseated1 hlen'
      refine ⟨s', ?_, ?_, ?_, ?_⟩
      · have hred : dealRoundRev (pid :: rest) s (c :: r') =
            dealRoundRev rest (giveCard s pid c) r' := rfl
        rw [hred, hdeal]
        simp
      · have e1 : (c :: r').drop ((pid :: rest).length) = r'.drop rest.length := rfl
        rw [e1]
        refine hperm.trans ?_
        refine (hperm1.append_right r').trans ?_
        simpa using (@List.perm_middle _ c (handsL s) r').symm
      · refine ⟨ps2, ?_⟩
        rw [hshape, hg]
      · rw [hids, hid']

theorem dealRoundsRev_spec :
    ∀ (n : Nat) (s : GameState) (r : List Card),
      (∀ pid ∈ s.playerOrder, (findPlayerIndex s pid).isSome) →
      n * s.playerOrder.length ≤ r.length →
      ∃ s', dealRoundsRev n s r = (s', r.drop (n * s.playerOrder.length), true) ∧
        (handsL s' ++ r.drop (n * s.playerOrder.length)).Perm (handsL s ++ r) ∧
        (∃ ps, s' = { s with players := ps }) ∧
        s'.players.map PlayerState.id = s.players.map PlayerState.id := by
  intro n
  induction n with
  | zero =>
    intro s r _ _
    exact ⟨s, by simp [dealRoundsRev], by simpa using List.Perm.refl (handsL s ++ r),
      ⟨s.players, rfl⟩, rfl⟩
  | succ n ih =>
    intro s r hseated hlen
    have hmul : (n + 1) * s.playerOrder.length =
        n * s.playerOrder.length + s.playerOrder.length :=
      Nat.succ_mul n s.playerOrder.length
    have hlen1 : s.playerOrder.length ≤ r.length := by omega
    obtain ⟨s1, hdeal1, hperm1, ⟨ps1, hshape1⟩, hids1⟩ :=
      dealRoundRev_spec s.playerOrder s r hseated hlen1
    have horder1 : s1.playerOrder = s.playerOrder := by rw [hshape1]
    have hseated1 : ∀ pid ∈ s1.playerOrder, (findPlayerIndex s1 pid).isSome := by
      intro pid hpid
      rw [findPlayerIndex_players_congr hids1 pid]
      exact hseated pid (by rwa [horder1] at hpid)
    have hlen2 : n * s1.playerOrder.length ≤ (r.drop s.playerOrder.length).length := by
      rw [horder1, List.length_drop]
      omega
    obtain ⟨s', hdeal, hperm, ⟨ps2, hshape⟩, hids⟩ :=
      ih s1 (r.drop s.playerOrder.length) hseated1 hlen2
    have hstep : dealRoundsRev (n + 1) s r =
        dealRoundsRev n s1 (r.drop s.playerOrder.length) := by
      simp only [dealRoundsRev, hdeal1]
    have hdd : (r.drop s.playerOrder.length).drop (n * s1.playerOrder.length) =
        r.drop ((n + 1) * s.playerOrder.length) := by
      rw [horder1, List.drop_drop]
      congr 1
      omega
    refine ⟨s', ?_, ?_, ?_, ?_⟩
    · rw [hstep, hdeal, hdd]
    · rw [← hdd]
      exact hperm.trans hperm1
    · refine ⟨ps2, ?_⟩
      rw [hshape, hshape1]
    · rw [hids, hids1]

/-! ## Lobby invariant -/

/-- Shape of every pre-start state the engine can produce. -/
structure LobbyInv (s : GameState) : Prop where
  ids_eq : s.players.map PlayerState.id = s.playerOrder
  hands_empty : ∀ p ∈ s.players, p.hand = []
  nodup : s.playerOrder.Nodup
  nonempty : s.playerOrder ≠ []
  le_two : s.players.length ≤ 2
  draw_nil : s.drawPile = []
  discard_nil : s.discardPile = []
  color_none : s.currentColor = none
  value_none : s.currentValue = none
  winner_none : s.winnerId = none
  turn_none : s.turn = none
  phase_lobby : s.phase = .waitingForPlayer ∨ s.phase = .readyToStart
  phase_ready : s.phase = .readyToStart ↔ s.players.length = 2

theorem findPlayerIndex_isSome_of_mem {s : GameState} {pid : PlayerId}
    (h : pid ∈ s.players.map PlayerState.id) : (findPlayerIndex s pid).isSome := by
  rw [findPlayerIndex_eq_ids]
  exact firstIdx_isSome_of_mem _ h (by simp)

theorem lobby_inv {s : GameState} (h : LobbyReachable s) : LobbyInv s := by
  induction h with
  | create roomId hostId tNow =>
    refine ⟨rfl, ?_, by simp [createGame], by simp [createGame], by simp [createGame],
      rfl, rfl, rfl, rfl, rfl, rfl, Or.inl rfl, by simp [createGame]⟩
    intro p hp
    simp [createGame] at hp
    rw [hp]
  | join pid tNow hs hj ih =>
    rename_i s s'
    unfold joinGame at hj
    split at hj
    · simp at hj
    · split at hj
      · simp at hj
      · split at hj
        · simp at hj
        · rename_i hphase hfind hfull
          injection hj with hfst hsnd
          have hs' : s' = { s with
              players := s.players ++ [⟨pid, []⟩]
              playerOrder := s.playerOrder ++ [pid]
              phase := if s.players.length + 1 = 2 then GamePhase.readyToStart
                       else GamePhase.waitingForPlayer
              updatedAt := tNow } := hfst.symm
          subst hs'
          have hnotmem : pid ∉ s.players.map PlayerState.id := by
            intro hmem
            exact hfind (findPlayerIndex_isSome_of_mem hmem)
          have hlen1 : s.players.length = 1 := by
            have h1 : s.players ≠ [] := by
              intro hnil
              apply ih.nonempty
              rw [← ih.ids_eq, hnil]
              rfl
            have h2 : 0 < s.players.length := List.length_pos.mpr h1
            simp at hfull
            omega
          refine ⟨?_, ?_, ?_, ?_, ?_, ?_, ?_, ?_, ?_, ?_, ?_, ?_, ?_⟩
          · simp [ih.ids_eq]
          · intro p hp
            rcases (by simpa using hp : p ∈ s.players ∨ p = (⟨pid, []⟩ : PlayerState))
              with h1 | h1
            · exact ih.hands_empty p h1
            · rw [h1]
          · show (s.playerOrder ++ [pid]).Nodup
            rw [List.nodup_append]
            refine ⟨ih.nodup, by simp, ?_⟩
            intro x hx hx2
            have hxpid : x = pid := by simpa using hx2
            subst hxpid
            rw [← ih.ids_eq] at hx
            exact hnotmem hx
          · show s.playerOrder ++ [pid] ≠ []
            simp
          · show (s.players ++ [(⟨pid, []⟩ : PlayerState)]).length ≤ 2
            simp [hlen1]
          · exact ih.draw_nil
          · exact ih.discard_nil
          · exact ih.color_none
          · exact ih.value_none
          · exact ih.winner_none
          · exact ih.turn_none
          · right
            show (if s.players.length + 1 = 2 then GamePhase.readyToStart
                  else GamePhase.waitingForPlayer) = GamePhase.readyToStart
            simp [hlen1]
          · show (if s.players.length + 1 = 2 then GamePhase.readyToStart
                  else GamePhase.waitingForPlayer) = GamePhase.readyToStart ↔
              (s.players ++ [(⟨pid, []⟩ : PlayerState)]).length = 2
            simp [hlen1]

theorem handsL_empty {s : GameState} (h : ∀ p ∈ s.players, p.hand = []) :
    handsL s = [] := by
  unfold handsL
  have haux : ∀ ps : List PlayerState, (∀ p ∈ ps, p.hand = []) →
      (ps.map PlayerState.hand).flatten = [] := by
    intro ps
    induction ps with
    | nil => intro _; rfl
    | cons a as ih =>
      intro hall
      simp [hall a (by simp), ih (fun p hp => hall p (by simp [hp]))]
  exact haux s.players h

theorem createDeck_length : createDeck.length = 76 := by decide

theorem startGame_lobby_eq {s : GameState} (hinv : LobbyInv s)
    (h2 : 2 ≤ s.players.length) (random : RandomFn) (tNow : Nat) :
    ∃ s1 deck' c,
      startGame s random tNow =
        ({ s1 with
            drawPile := deck'
            discardPile := [c]
            currentColor := some c.color
            currentValue := some c.value
            phase := .inProgress
            winnerId := none
            turn := some ⟨s1.playerOrder.getD 0 "", false⟩
            updatedAt := tNow }, .ok ()) ∧
      (handsL s1 ++ deck' ++ [c]).Perm createDeck ∧
      (∃ ps, s1 = { s with players := ps }) ∧
      s1.players.map PlayerState.id = s.players.map PlayerState.id := by
  have hlen2 : s.players.length = 2 := le_antisymm hinv.le_two h2
  have horderlen : s.playerOrder.length = 2 := by
    rw [← hinv.ids_eq]
    simp [hlen2]
  have hdeck : (shuffle createDeck random).length = 76 := by
    rw [shuffle_length, createDeck_length]
  set deck := shuffle createDeck random with hdeckdef
  have hRlen : deck.reverse.length = 76 := by simp [hdeck]
  have hseated : ∀ pid ∈ s.playerOrder, (findPlayerIndex s pid).isSome := by
    intro pid hpid
    apply findPlayerIndex_isSome_of_mem
    rw [hinv.ids_eq]
    exact hpid
  have hle : CARDS_PER_PLAYER * s.playerOrder.length ≤ deck.reverse.length := by
    rw [horderlen, hRlen]
    decide
  obtain ⟨s1, hdeal, hperm, ⟨ps1, hshape1⟩, hids1⟩ :=
    dealRoundsRev_spec CARDS_PER_PLAYER s deck.reverse hseated hle
  have hdroplen :
      (deck.reverse.drop (CARDS_PER_PLAYER * s.playerOrder.length)).length = 62 := by
    rw [List.length_drop, horderlen, hRlen]
    decide
  obtain ⟨c, t', hct⟩ := List.exists_cons_of_ne_nil
    (l := deck.reverse.drop (CARDS_PER_PLAYER * s.playerOrder.length))
    (by intro hnil; rw [hnil] at hdroplen; simp at hdroplen)
  have hdeal' : dealRounds CARDS_PER_PLAYER s deck = (s1, (c :: t').reverse, true) := by
    rw [dealRounds_rev_eq, hdeal, hct]
  have hpop : drawTopCard ((c :: t').reverse) = (some c, t'.reverse) :=
    drawTopCard_rev_cons (by simp)
  have hphase1 : s.phase ≠ GamePhase.inProgress := by
    rcases hinv.phase_lobby with h | h <;> rw [h] <;> simp
  have hphase2 : s.phase ≠ GamePhase.finished := by
    rcases hinv.phase_lobby with h | h <;> rw [h] <;> simp
  refine ⟨s1, t'.reverse, c, ?_, ?_, ⟨ps1, hshape1⟩, hids1⟩
  · unfold startGame
    rw [if_neg (by omega), if_neg (by simp [hphase1, hphase2])]
    simp only [hdeal', hpop]
  · have hs0 : handsL s = [] := handsL_empty hinv.hands_empty
    rw [hct] at hperm
    rw [hs0] at hperm
    simp only [List.nil_append] at hperm
    have hstep1 : (handsL s1 ++ t'.reverse ++ [c]).Perm (handsL s1 ++ (c :: t')) := by
      rw [List.append_assoc]
      refine List.Perm.append_left (handsL s1) ?_
      exact ((t'.reverse_perm).append_right [c]).trans (List.perm_append_singleton c t')
    refine hstep1.trans (hperm.trans ?_)
    exact (deck.reverse_perm).trans (shuffle_perm createDeck random)

/-! ## Operation-level lemmas -/

theorem ensureActivePlayer_none {s : GameState} {pid : PlayerId} :
    ensureActivePlayer s pid = none ↔
      ∃ tn, s.turn = some tn ∧ tn.activePlayerId = pid := by
  unfold ensureActivePlayer
  cases ht : s.turn with
  | none => simp
  | some tn =>
    simp only []
    by_cases h : tn.activePlayerId = pid
    · simp only [if_pos h]
      constructor
      · intro _
        exact ⟨tn, rfl, h⟩
      · intro _
        trivial
    · simp only [if_neg h]
      constructor
      · intro hc
        cases hc
      · rintro ⟨tn2, htn2, hact2⟩
        injection htn2 with he
        subst he
        exact absurd hact2 h

/-- The state `playCard` produces on success, given the seat index `i` and
the in-hand index `k` of the played card. -/
def playCardSuccState (s : GameState) (pid : PlayerId) (i k : Nat)
    (tNow : Nat) : GameState :=
  let player := s.players.getD i defaultPlayer
  let card := player.hand.getD k defaultCard
  let newHand := player.hand.eraseIdx k
  let s1 := { s with
      players := s.players.set i { player with hand := newHand }
      discardPile := s.discardPile ++ [card]
      currentColor := some card.color
      currentValue := some card.value }
  if newHand.length = 0 then
    { s1 with phase := .finished, winnerId := some pid, turn := none, updatedAt := tNow }
  else
    { advanceTurn s1 with updatedAt := tNow }

theorem playCard_ok_fwd {s : GameState} {pid : PlayerId} {cid : String} {t : Nat}
    {tn : TurnState} {i k : Nat}
    (hph : s.phase = .inProgress)
    (ht : s.turn = some tn) (hact : tn.activePlayerId = pid)
    (hi : findPlayerIndex s pid = some i)
    (hk : firstIdx (fun card => decide (card.id = cid))
      (s.players.getD i defaultPlayer).hand = some k)
    (hplay : isCardPlayable ((s.players.getD i defaultPlayer).hand.getD k defaultCard)
      s.currentColor s.currentValue = true) :
    playCard s pid cid t = (playCardSuccState s pid i k t, .ok ()) := by
  unfold playCard
  rw [if_neg (by simp [hph])]
  have hens : ensureActivePlayer s pid = none := ensureActivePlayer_none.mpr ⟨tn, ht, hact⟩
  simp only [hens, hi, hk]
  rw [if_neg (not_not_intro hplay)]
  simp only [playCardSuccState]
  split
  · rfl
  · rfl

theorem playCard_ok_inv {s s' : GameState} {pid : PlayerId} {cid : String} {t : Nat}
    (h : playCard s pid cid t = (s', .ok ())) :
    s.phase = .inProgress ∧
    ∃ tn, s.turn = some tn ∧ tn.activePlayerId = pid ∧
    ∃ i, findPlayerIndex s pid = some i ∧
    ∃ k, firstIdx (fun card => decide (card.id = cid))
        (s.players.getD i defaultPlayer).hand = some k ∧
      isCardPlayable ((s.players.getD i defaultPlayer).hand.getD k defaultCard)
        s.currentColor s.currentValue = true ∧
      s' = playCardSuccState s pid i k t := by
  have horig := h
  unfold playCard at h
  split at h
  · simp at h
  · rename_i hphneg
    have hph : s.phase = .inProgress := by
      by_contra hc
      exact hphneg (by simp [hc])
    refine ⟨hph, ?_⟩
    split at h
    · simp at h
    · rename_i hens
      obtain ⟨tn, ht, hact⟩ := ensureActivePlayer_none.mp hens
      refine ⟨tn, ht, hact, ?_⟩
      split at h
      · simp at h
      · rename_i i hfind
        refine ⟨i, hfind, ?_⟩
        simp only [] at h
        split at h
        · simp at h
        · rename_i k hfk
          refine ⟨k, hfk, ?_⟩
          split at h
          · simp at h
          · rename_i hplayneg
            have hplay : isCardPlayable
                ((s.players.getD i defaultPlayer).hand.getD k defaultCard)
                s.currentColor s.currentValue = true := by
              by_contra hc
              exact hplayneg (by simpa using hc)
            refine ⟨hplay, ?_⟩
            rw [playCard_ok_fwd hph ht hact hfind hfk hplay] at horig
            injection horig with h1 h2
            exact h1.symm

theorem passTurn_ok_fwd {s : GameState} {pid : PlayerId} {t : Nat} {tn : TurnState}
    (hph : s.phase = .inProgress) (ht : s.turn = some tn)
    (hact : tn.activePlayerId = pid) (hdrawn : tn.hasDrawnCard = true) :
    passTurn s pid t = ({ advanceTurn s with updatedAt := t }, .ok ()) := by
  unfold passTurn
  rw [if_neg (by simp [hph])]
  have hens : ensureActivePlayer s pid = none := ensureActivePlayer_none.mpr ⟨tn, ht, hact⟩
  simp only [hens]
  have hx : ((s.turn.map TurnState.hasDrawnCard).getD false) = true := by
    rw [ht]
    simpa using hdrawn
  rw [if_neg (not_not_intro hx)]

theorem passTurn_ok_inv {s s' : GameState} {pid : PlayerId} {t : Nat}
    (h : passTurn s pid t = (s', .ok ())) :
    s.phase = .inProgress ∧
    ∃ tn, s.turn = some tn ∧ tn.activePlayerId = pid ∧ tn.hasDrawnCard = true ∧
      s' = { advanceTurn s with updatedAt := t } := by
  unfold passTurn at h
  split at h
  · simp at h
  · rename_i hphneg
    have hph : s.phase = .inProgress := by
      by_contra hc
      exact hphneg (by simp [hc])
    split at h
    · simp at h
    · rename_i hens
      obtain ⟨tn, ht, hact⟩ := ensureActivePlayer_none.mp hens
      split at h
      · simp at h
      · rename_i hdrneg
        have hdrawn : tn.hasDrawnCard = true := by
          by_contra hc
          apply hdrneg
          intro hx
          rw [ht] at hx
          simp at hx
          exact hc hx
        injection h with h1 h2
        exact ⟨hph, tn, ht, hact, hdrawn, h1.symm⟩

theorem drawCard_ok_fwd {s : GameState} {pid : PlayerId} {random : RandomFn} {t : Nat}
    {tn : TurnState} {s1 : GameState} {card : Card} {pile' : List Card} {i : Nat}
    (hph : s.phase = .inProgress) (ht : s.turn = some tn)
    (hact : tn.activePlayerId = pid) (hdrawn : tn.hasDrawnCard = false)
    (hnoplay : playableCheck (listPlayableCards s pid) = false)
    (hrepl : (if s.drawPile.length = 0 then replenishDrawPile s random
              else (s, none)) = (s1, none))
    (hpop : drawTopCard s1.drawPile = (some card, pile'))
    (hi : findPlayerIndex s1 pid = some i) :
    drawCard s pid random t =
      ({ s1 with
          drawPile := pile'
          players := s1.players.set i
            ((fun p => { p with hand := p.hand ++ [card] })
              (s1.players.getD i defaultPlayer))
          turn := some ⟨tn.activePlayerId, true⟩
          updatedAt := t },
       .ok (card, isCardPlayable card s1.currentColor s1.currentValue)) := by
  unfold drawCard
  rw [if_neg (by simp [hph])]
  have hens : ensureActivePlayer s pid = none := ensureActivePlayer_none.mpr ⟨tn, ht, hact⟩
  simp only [hens, ht]
  rw [if_neg (by simp [hdrawn])]
  rw [if_neg (by simp [hnoplay])]
  have hi2 : findPlayerIndex { s1 with drawPile := pile' } pid = some i := hi
  simp only [hrepl, hpop, hi2]

theorem drawCard_ok_inv {s s' : GameState} {pid : PlayerId} {random : RandomFn}
    {t : Nat} {card : Card} {pb : Bool}
    (h : drawCard s pid random t = (s', .ok (card, pb))) :
    s.phase = .inProgress ∧
    ∃ tn, s.turn = some tn ∧ tn.activePlayerId = pid ∧ tn.hasDrawnCard = false ∧
    playableCheck (listPlayableCards s pid) = false ∧
    ∃ s1, (if s.drawPile.length = 0 then replenishDrawPile s random
           else (s, none)) = (s1, none) ∧
    ∃ pile', drawTopCard s1.drawPile = (some card, pile') ∧
    ∃ i, findPlayerIndex s1 pid = some i ∧
      s' = { s1 with
          drawPile := pile'
          players := s1.players.set i
            ((fun p => { p with hand := p.hand ++ [card] })
              (s1.players.getD i defaultPlayer))
          turn := some ⟨tn.activePlayerId, true⟩
          updatedAt := t } ∧
      pb = isCardPlayable card s1.currentColor s1.currentValue := by
  have horig := h
  unfold drawCard at h
  split at h
  · simp at h
  · rename_i hphneg
    have hph : s.phase = .inProgress := by
      by_contra hc
      exact hphneg (by simp [hc])
    split at h
    · simp at h
    · rename_i hens
      obtain ⟨tn, ht, hact⟩ := ensureActivePlayer_none.mp hens
      split at h
      · rename_i hnone
        rw [hnone] at ht
        cases ht
      · rename_i tn2 ht2
        have htn : tn2 = tn := by
          rw [ht2] at ht
          exact Option.some.inj ht
        subst htn
        split at h
        · simp at h
        · rename_i hdrneg
          have hdrawn : tn2.hasDrawnCard = false := by
            cases hb : tn2.hasDrawnCard
            · rfl
            · exact absurd hb hdrneg
          split at h
          · simp at h
          · rename_i hplayneg
            have hnoplay : playableCheck (listPlayableCards s pid) = false := by
              cases hb : playableCheck (listPlayableCards s pid)
              · rfl
              · exact absurd hb hplayneg
            simp only [] at h
            split at h
            · simp at h
            · rename_i hreplnone
              set ifterm := (if s.drawPile.length = 0 then replenishDrawPile s random
                else (s, none)) with hifdef
              have hrepl : ifterm = (ifterm.1, none) := by
                rw [← hreplnone]
              split at h
              · simp at h
              · rename_i card2 pile' hpop
                split at h
                · simp at h
                · rename_i i hfi
                  have hfi1 : findPlayerIndex ifterm.1 pid = some i := hfi
                  rw [drawCard_ok_fwd hph ht hact hdrawn hnoplay hrepl hpop hfi1]
                    at horig
                  injection horig with h1 h2
                  injection h2 with h3
                  injection h3 with hcard hpb
                  subst hcard
                  exact ⟨hph, tn2, ht, hact, hdrawn, hnoplay, ifterm.1, hrepl, pile',
                    hpop, i, hfi1, h1.symm, hpb.symm⟩

/-! ## The started-state invariant -/

/-- Every card in the game, as one list: hands, then draw pile, then discard. -/
def allCardsL (s : GameState) : List Card :=
  handsL s ++ s.drawPile ++ s.discardPile

theorem cardMultiset_eq_sum (s : GameState) :
    cardMultiset s = (↑(handsL s) + ↑s.drawPile + ↑s.discardPile : Multiset Card) := by
  show ((handsL s ++ s.drawPile ++ s.discardPile : List Card) : Multiset Card) = _
  rw [Multiset.coe_add, Multiset.coe_add]

theorem getD_mem_of_lt {α : Type} {l : List α} {n : Nat} (d : α) (h : n < l.length) :
    l.getD n d ∈ l := by
  rw [List.getD_eq_getElem l d h]
  exact List.getElem_mem h

theorem getNextPlayerId_mem {s : GameState} {cur : PlayerId}
    (h : cur ∈ s.playerOrder) : getNextPlayerId s cur ∈ s.playerOrder := by
  unfold getNextPlayerId
  cases hf : firstIdx (fun x => decide (x = cur)) s.playerOrder with
  | none => exact h
  | some idx =>
    have hpos : 0 < s.playerOrder.length := List.length_pos.mpr (by
      intro hnil
      rw [hnil] at h
      cases h)
    exact getD_mem_of_lt cur (Nat.mod_lt _ hpos)

theorem drawTopCard_some_eq {α : Type} {l l' : List α} {c : α}
    (h : drawTopCard l = (some c, l')) : l = l' ++ [c] := by
  unfold drawTopCard at h
  cases hg : l.getLast? with
  | none => rw [hg] at h; simp at h
  | some c0 =>
    rw [hg] at h
    injection h with h1 h2
    injection h1 with h1
    subst h1
    subst h2
    have hne : l ≠ [] := by
      intro hnil
      rw [hnil] at hg
      simp at hg
    have := List.dropLast_append_getLast hne
    rw [List.getLast?_eq_getLast l hne] at hg
    injection hg with hg
    rw [hg] at this
    exact this.symm

theorem getLast?_eq_getD {α : Type} {l : List α} (d : α) (h : l ≠ []) :
    l.getLast? = some (l.getD (l.length - 1) d) := by
  have hpos : 0 < l.length := List.length_pos.mpr h
  rw [List.getLast?_eq_getElem?, List.getD_eq_getElem l d (by omega)]
  rw [List.getElem?_eq_getElem (by omega)]

/-- Invariant of every state reachable after a successful `startGame`. -/
structure StartedInv (s : GameState) : Prop where
  cards : cardMultiset s = (createDeck : Multiset Card)
  started : phaseStarted s
  top : ∃ c, s.discardPile.getLast? = some c ∧ s.currentColor = some c.color ∧
    s.currentValue = some c.value
  order_nonempty : s.playerOrder ≠ []
  order_seated : ∀ pid ∈ s.playerOrder, (findPlayerIndex s pid).isSome
  active_in_order : ∀ tn, s.turn = some tn → tn.activePlayerId ∈ s.playerOrder

theorem start_inv {s s' : GameState} {random : RandomFn} {t : Nat}
    (hlob : LobbyInv s) (hstart : startGame s random t = (s', .ok ())) :
    StartedInv s' := by
  have h2 : 2 ≤ s.players.length := by
    by_contra hc
    unfold startGame at hstart
    rw [if_pos (by omega)] at hstart
    simp at hstart
  obtain ⟨s1, deck', c, heq, hperm, ⟨ps1, hshape⟩, hids⟩ :=
    startGame_lobby_eq hlob h2 random t
  rw [heq] at hstart
  injection hstart with h1 h2'
  subst h1
  have horder1 : s1.playerOrder = s.playerOrder := by rw [hshape]
  refine ⟨?_, Or.inl rfl, ⟨c, by simp, rfl, rfl⟩, ?_, ?_, ?_⟩
  · rw [cardMultiset_eq_sum]
    show (↑(handsL s1) + ↑deck' + ↑[c] : Multiset Card) = ↑createDeck
    have h3 : ((handsL s1 ++ deck' ++ [c] : List Card) : Multiset Card) =
        ↑(handsL s1) + ↑deck' + ↑[c] := by
      rw [Multiset.coe_add, Multiset.coe_add]
    rw [← h3]
    exact Multiset.coe_eq_coe.mpr hperm
  · show s1.playerOrder ≠ []
    rw [horder1]
    exact hlob.nonempty
  · intro pid hpid
    show (findPlayerIndex _ pid).isSome
    have hcongr : findPlayerIndex { s1 with
        drawPile := deck'
        discardPile := [c]
        currentColor := some c.color
        currentValue := some c.value
        phase := GamePhase.inProgress
        winnerId := none
        turn := some ⟨s1.playerOrder.getD 0 "", false⟩
        updatedAt := t } pid = findPlayerIndex s pid :=
      findPlayerIndex_players_congr hids pid
    rw [hcongr]
    apply findPlayerIndex_isSome_of_mem
    rw [hlob.ids_eq]
    rw [horder1] at hpid
    exact hpid
  · intro tn htn
    injection htn with htn
    rw [← htn]
    show s1.playerOrder.getD 0 "" ∈ s1.playerOrder
    refine getD_mem_of_lt _ ?_
    have : s1.playerOrder ≠ [] := by
      rw [horder1]
      exact hlob.nonempty
    exact List.length_pos.mpr this

theorem handsL_split_coe (pre : List PlayerState) (a : PlayerState)
    (post : List PlayerState) :
    ((((pre ++ a :: post).map PlayerState.hand).flatten : List Card) : Multiset Card) =
      ↑(pre.map PlayerState.hand).flatten + ↑a.hand +
        ↑(post.map PlayerState.hand).flatten := by
  simp only [List.map_append, List.map_cons, List.flatten_append, List.flatten_cons]
  rw [Multiset.coe_add, Multiset.coe_add, List.append_assoc]

theorem map_id_set_hand (pre : List PlayerState) (a : PlayerState)
    (post : List PlayerState) (h : List Card) :
    (pre ++ { a with hand := h } :: post).map PlayerState.id =
      (pre ++ a :: post).map PlayerState.id := by
  simp

theorem play_inv {s s' : GameState} {pid : PlayerId} {cid : String} {t : Nat}
    (hinv : StartedInv s) (h : playCard s pid cid t = (s', .ok ())) :
    StartedInv s' := by
  obtain ⟨hph, tn, ht, hact, i, hfind, k, hfk, hplay, hs'⟩ := playCard_ok_inv h
  obtain ⟨pre, a, post, hsplit, hlen, haid, -⟩ := findPlayerIndex_split hfind
  have hgetD : s.players.getD i defaultPlayer = a := by
    subst hlen
    rw [hsplit]
    exact getD_append_cons pre a post defaultPlayer
  have hklt : k < a.hand.length := by
    have h1 := firstIdx_lt_length hfk
    rwa [hgetD] at h1
  have hhandperm : ((a.hand.getD k defaultCard) :: a.hand.eraseIdx k).Perm a.hand :=
    getD_cons_eraseIdx_perm a.hand k defaultCard hklt
  have hsetplayers : s.players.set i { a with hand := a.hand.eraseIdx k } =
      pre ++ { a with hand := a.hand.eraseIdx k } :: post := by
    subst hlen
    rw [hsplit]
    exact set_append_cons pre a _ post
  have hids : (s.players.set i { a with hand := a.hand.eraseIdx k }).map PlayerState.id
      = s.players.map PlayerState.id := by
    rw [hsetplayers, hsplit]
    exact map_id_set_hand pre a post _
  have hcoe : (↑a.hand : Multiset Card) =
      {a.hand.getD k defaultCard} + ↑(a.hand.eraseIdx k) := by
    rw [← Multiset.coe_eq_coe.mpr hhandperm, ← Multiset.cons_coe,
      Multiset.singleton_add]
  have hcards : (↑(((s.players.set i { a with hand := a.hand.eraseIdx k }).map
        PlayerState.hand).flatten) + ↑s.drawPile +
        ↑(s.discardPile ++ [a.hand.getD k defaultCard]) : Multiset Card) =
      ↑createDeck := by
    rw [← hinv.cards, cardMultiset_eq_sum]
    unfold handsL
    rw [hsetplayers]
    conv_rhs => rw [hsplit]
    simp only [List.map_append, List.map_cons, List.flatten_append, List.flatten_cons,
      ← Multiset.coe_add, Multiset.coe_singleton]
    rw [hcoe]
    abel
  have horderseat : ∀ (s2 : GameState),
      s2.players = s.players.set i { a with hand := a.hand.eraseIdx k } →
      s2.playerOrder = s.playerOrder →
      (∀ pid2 ∈ s2.playerOrder, (findPlayerIndex s2 pid2).isSome) := by
    intro s2 hp2 ho2 pid2 hpid2
    have hc : findPlayerIndex s2 pid2 = findPlayerIndex s pid2 := by
      apply findPlayerIndex_players_congr
      rw [hp2, hids]
    rw [hc]
    have := hinv.order_seated pid2 (by rwa [ho2] at hpid2)
    exact this
  simp only [playCardSuccState] at hs'
  rw [hgetD] at hs'
  split at hs'
  · subst hs'
    refine ⟨?_, Or.inr rfl, ?_, ?_, ?_, ?_⟩
    · rw [cardMultiset_eq_sum]
      exact hcards
    · exact ⟨a.hand.getD k defaultCard, by simp, rfl, rfl⟩
    · exact hinv.order_nonempty
    · exact horderseat _ rfl rfl
    · intro tn2 htn2
      cases htn2
  · rename_i hnonempty
    have hadv : advanceTurn { s with
        players := s.players.set i { a with hand := a.hand.eraseIdx k }
        discardPile := s.discardPile ++ [a.hand.getD k defaultCard]
        currentColor := some (a.hand.getD k defaultCard).color
        currentValue := some (a.hand.getD k defaultCard).value } =
        { s with
          players := s.players.set i { a with hand := a.hand.eraseIdx k }
          discardPile := s.discardPile ++ [a.hand.getD k defaultCard]
          currentColor := some (a.hand.getD k defaultCard).color
          currentValue := some (a.hand.getD k defaultCard).value
          turn := some ⟨getNextPlayerId { s with
              players := s.players.set i { a with hand := a.hand.eraseIdx k }
              discardPile := s.discardPile ++ [a.hand.getD k defaultCard]
              currentColor := some (a.hand.getD k defaultCard).color
              currentValue := some (a.hand.getD k defaultCard).value }
            tn.activePlayerId, false⟩ } := by
      unfold advanceTurn
      simp only []
      rw [show ({ s with
          players := s.players.set i { a with hand := a.hand.eraseIdx k }
          discardPile := s.discardPile ++ [a.hand.getD k defaultCard]
          currentColor := some (a.hand.getD k defaultCard).color
          currentValue := some (a.hand.getD k defaultCard).value } : GameState).turn
        = some tn from ht]
    rw [hadv] at hs'
    subst hs'
    refine ⟨?_, Or.inl hph, ?_, ?_, ?_, ?_⟩
    · rw [cardMultiset_eq_sum]
      exact hcards
    · exact ⟨a.hand.getD k defaultCard, by simp, rfl, rfl⟩
    · exact hinv.order_nonempty
    · exact horderseat _ rfl rfl
    · intro tn2 htn2
      injection htn2 with htn2
      rw [← htn2]
      show getNextPlayerId _ tn.activePlayerId ∈ s.playerOrder
      exact getNextPlayerId_mem (hinv.active_in_order tn ht)

theorem pass_inv {s s' : GameState} {pid : PlayerId} {t : Nat}
    (hinv : StartedInv s) (h : passTurn s pid t = (s', .ok ())) :
    StartedInv s' := by
  obtain ⟨hph, tn, ht, hact, hdrawn, hs'⟩ := passTurn_ok_inv h
  have hadv : advanceTurn s =
      { s with turn := some ⟨getNextPlayerId s tn.activePlayerId, false⟩ } := by
    unfold advanceTurn
    rw [ht]
  rw [hadv] at hs'
  subst hs'
  refine ⟨?_, Or.inl hph, ?_, hinv.order_nonempty, ?_, ?_⟩
  · rw [cardMultiset_eq_sum]
    show (↑(handsL s) + ↑s.drawPile + ↑s.discardPile : Multiset Card) = ↑createDeck
    rw [← cardMultiset_eq_sum]
    exact hinv.cards
  · obtain ⟨c, h1, h2, h3⟩ := hinv.top
    exact ⟨c, h1, h2, h3⟩
  · intro pid2 hpid2
    exact hinv.order_seated pid2 hpid2
  · intro tn2 htn2
    injection htn2 with htn2
    rw [← htn2]
    exact getNextPlayerId_mem (hinv.active_in_order tn ht)

theorem replenish_inv {s s1 : GameState} {random : RandomFn}
    (hinv : StartedInv s) (hdraw0 : s.drawPile = [])
    (hrepl : replenishDrawPile s random = (s1, none)) :
    StartedInv s1 ∧ s1.phase = s.phase ∧ s1.playerOrder = s.playerOrder ∧
      s1.turn = s.turn ∧ s1.players = s.players := by
  unfold replenishDrawPile at hrepl
  split at hrepl
  · simp at hrepl
  · rename_i hlen
    simp only [] at hrepl
    injection hrepl with h1 h2
    have hlen2 : 2 ≤ s.discardPile.length := by omega
    have hne : s.discardPile ≠ [] := by
      intro hnil
      rw [hnil] at hlen2
      simp at hlen2
    obtain ⟨c, hc1, hc2, hc3⟩ := hinv.top
    have htop : s.discardPile.getD (s.discardPile.length - 1) defaultCard = c := by
      have h3 := getLast?_eq_getD defaultCard hne
      rw [hc1] at h3
      exact (Option.some.inj h3).symm
    have hdecomp : s.discardPile = s.discardPile.dropLast ++ [c] := by
      have h4 := List.dropLast_append_getLast hne
      rw [List.getLast?_eq_getLast s.discardPile hne] at hc1
      rw [Option.some.inj hc1] at h4
      exact h4.symm
    subst h1
    refine ⟨⟨?_, hinv.started, ?_, hinv.order_nonempty, ?_, hinv.active_in_order⟩,
      rfl, rfl, rfl, rfl⟩
    · rw [cardMultiset_eq_sum]
      show (↑(handsL s) + ↑(shuffle s.discardPile.dropLast random) +
          ↑[s.discardPile.getD (s.discardPile.length - 1) defaultCard] :
          Multiset Card) = ↑createDeck
      rw [htop, ← hinv.cards, cardMultiset_eq_sum, hdraw0]
      have h5 : (↑(shuffle s.discardPile.dropLast random) : Multiset Card) =
          ↑s.discardPile.dropLast :=
        Multiset.coe_eq_coe.mpr (shuffle_perm _ _)
      rw [h5]
      conv_rhs => rw [hdecomp]
      simp only [← Multiset.coe_add, Multiset.coe_singleton]
      have h6 : ((↑([] : List Card) : Multiset Card)) = 0 := rfl
      rw [h6]
      abel
    · refine ⟨c, ?_, hc2, hc3⟩
      show [s.discardPile.getD (s.discardPile.length - 1) defaultCard].getLast? = some c
      rw [htop]
      rfl
    · intro pid2 hpid2
      exact hinv.order_seated pid2 hpid2

theorem drawstep_inv {s1 s' : GameState} {pid : PlayerId} {card : Card}
    {pile' : List Card} {i : Nat} {t : Nat} {tnact : PlayerId}
    (hinv1 : StartedInv s1)
    (hpop : drawTopCard s1.drawPile = (some card, pile'))
    (hi : findPlayerIndex s1 pid = some i)
    (hactmem : tnact ∈ s1.playerOrder)
    (hs' : s' = { s1 with
        drawPile := pile'
        players := s1.players.set i
          ((fun p => { p with hand := p.hand ++ [card] })
            (s1.players.getD i defaultPlayer))
        turn := some ⟨tnact, true⟩
        updatedAt := t })
    (hph1 : s1.phase = .inProgress) : StartedInv s' := by
  obtain ⟨pre, a, post, hsplit, hlen, haid, -⟩ := findPlayerIndex_split hi
  have hgetD : s1.players.getD i defaultPlayer = a := by
    subst hlen
    rw [hsplit]
    exact getD_append_cons pre a post defaultPlayer
  have hsetp : s1.players.set i { a with hand := a.hand ++ [card] } =
      pre ++ { a with hand := a.hand ++ [card] } :: post := by
    subst hlen
    rw [hsplit]
    exact set_append_cons pre a _ post
  have hpile : s1.drawPile = pile' ++ [card] := drawTopCard_some_eq hpop
  rw [hgetD] at hs'
  simp only [] at hs'
  subst hs'
  refine ⟨?_, Or.inl hph1, ?_, hinv1.order_nonempty, ?_, ?_⟩
  · rw [cardMultiset_eq_sum]
    show (↑(((s1.players.set i { a with hand := a.hand ++ [card] }).map
        PlayerState.hand).flatten) + ↑pile' + ↑s1.discardPile : Multiset Card) =
      ↑createDeck
    rw [hsetp, ← hinv1.cards, cardMultiset_eq_sum, hpile]
    unfold handsL
    conv_rhs => rw [hsplit]
    simp only [List.map_append, List.map_cons, List.flatten_append, List.flatten_cons,
      ← Multiset.coe_add, Multiset.coe_singleton]
    abel
  · obtain ⟨c, h1, h2, h3⟩ := hinv1.top
    exact ⟨c, h1, h2, h3⟩
  · intro pid2 hpid2
    have hids : (s1.players.set i { a with hand := a.hand ++ [card] }).map
        PlayerState.id = s1.players.map PlayerState.id := by
      rw [hsetp, hsplit]
      exact map_id_set_hand pre a post _
    have hc : findPlayerIndex { s1 with
        drawPile := pile'
        players := s1.players.set i { a with hand := a.hand ++ [card] }
        turn := some ⟨tnact, true⟩
        updatedAt := t } pid2 = findPlayerIndex s1 pid2 :=
      findPlayerIndex_players_congr hids pid2
    rw [hc]
    exact hinv1.order_seated pid2 hpid2
  · intro tn2 htn2
    injection htn2 with htn2
    rw [← htn2]
    exact hactmem

theorem draw_inv {s s' : GameState} {pid : PlayerId} {random : RandomFn} {t : Nat}
    {card : Card} {pb : Bool}
    (hinv : StartedInv s) (h : drawCard s pid random t = (s', .ok (card, pb))) :
    StartedInv s' := by
  obtain ⟨hph, tn, ht, hact, hdrawn, hnoplay, s1, hrepl, pile', hpop, i, hi, hs', hpb⟩ :=
    drawCard_ok_inv h
  have hmem : tn.activePlayerId ∈ s.playerOrder := hinv.active_in_order tn ht
  by_cases hd0 : s.drawPile.length = 0
  · rw [if_pos hd0] at hrepl
    have hdnil : s.drawPile = [] := List.length_eq_zero.mp hd0
    obtain ⟨hinv1, hph1, hord1, hturn1, hplayers1⟩ := replenish_inv hinv hdnil hrepl
    exact drawstep_inv hinv1 hpop hi (by rw [hord1]; exact hmem) hs'
      (by rw [hph1]; exact hph)
  · rw [if_neg hd0] at hrepl
    injection hrepl with h1 h2
    subst h1
    exact drawstep_inv hinv hpop hi hmem hs' hph

theorem reachable_inv {s : GameState} (h : Reachable s) : StartedInv s := by
  induction h with
  | start random tNow hlob hstart => exact start_inv (lobby_inv hlob) hstart
  | play pid cid tNow hr hplay ih => exact play_inv ih hplay
  | draw pid random tNow info hr hdraw ih =>
    obtain ⟨c, b⟩ := info
    exact draw_inv ih hdraw
  | pass pid tNow hr hpass ih => exact pass_inv ih hpass

/-- Any engine-produced state: a lobby or a started game. -/
def EngineReachable (s : GameState) : Prop := LobbyReachable s ∨ Reachable s

/-! ## Error paths leave the state untouched (with the one caveat analysed
in `drawCard_err_of_reachable`) -/

theorem playCard_err {s s' : GameState} {pid : PlayerId} {cid : String} {t : Nat}
    {e : GameError} (h : playCard s pid cid t = (s', .err e)) : s' = s := by
  unfold playCard at h
  split at h
  · injection h with h1 h2
    exact h1.symm
  · split at h
    · injection h with h1 h2
      exact h1.symm
    · split at h
      · injection h with h1 h2
        exact h1.symm
      · simp only [] at h
        split at h
        · injection h with h1 h2
          exact h1.symm
        · split at h
          · injection h with h1 h2
            exact h1.symm
          · split at h <;> simp at h

theorem passTurn_err {s s' : GameState} {pid : PlayerId} {t : Nat}
    {e : GameError} (h : passTurn s pid t = (s', .err e)) : s' = s := by
  unfold passTurn at h
  split at h
  · injection h with h1 h2
    exact h1.symm
  · split at h
    · injection h with h1 h2
      exact h1.symm
    · split at h
      · injection h with h1 h2
        exact h1.symm
      · simp at h

theorem joinGame_err {s s' : GameState} {pid : PlayerId} {t : Nat}
    {e : GameError} (h : joinGame s pid t = (s', .err e)) : s' = s := by
  unfold joinGame at h
  split at h
  · injection h with h1 h2
    exact h1.symm
  · split at h
    · injection h with h1 h2
      exact h1.symm
    · split at h
      · injection h with h1 h2
        exact h1.symm
      · simp at h

theorem replenish_none_drawPile {s s1 : GameState} {random : RandomFn}
    (h : replenishDrawPile s random = (s1, none)) : s1.drawPile ≠ [] := by
  unfold replenishDrawPile at h
  split at h
  · simp at h
  · rename_i hlen
    simp only [] at h
    injection h with h1 h2
    rw [← h1]
    show shuffle s.discardPile.dropLast random ≠ []
    intro hnil
    have := congrArg List.length hnil
    rw [shuffle_length, List.length_dropLast] at this
    simp at this
    omega

theorem replenish_err {s s1 : GameState} {random : RandomFn} {e : GameError}
    (h : replenishDrawPile s random = (s1, some e)) : s1 = s := by
  unfold replenishDrawPile at h
  split at h
  · injection h with h1 h2
    exact h1.symm
  · simp only [] at h
    injection h with h1 h2
    simp at h2

theorem drawTopCard_none {α : Type} {l l' : List α}
    (h : drawTopCard l = (none, l')) : l = [] := by
  unfold drawTopCard at h
  cases hg : l.getLast? with
  | none => exact List.getLast?_eq_none_iff.mp hg
  | some c => rw [hg] at h; simp at h

theorem replenish_players {s s1 : GameState} {random : RandomFn}
    {x : Option GameError} (h : replenishDrawPile s random = (s1, x)) :
    s1.players = s.players ∧ s1.phase = s.phase ∧ s1.playerOrder = s.playerOrder ∧
      s1.turn = s.turn ∧ s1.currentColor = s.currentColor ∧
      s1.currentValue = s.currentValue := by
  unfold replenishDrawPile at h
  split at h
  · injection h with h1 h2
    rw [← h1]
    exact ⟨rfl, rfl, rfl, rfl, rfl, rfl⟩
  · simp only [] at h
    injection h with h1 h2
    rw [← h1]
    exact ⟨rfl, rfl, rfl, rfl, rfl, rfl⟩

theorem drawCard_err_of_reachable {s s' : GameState} {pid : PlayerId}
    {random : RandomFn} {t : Nat} {e : GameError}
    (hr : EngineReachable s) (h : drawCard s pid random t = (s', .err e)) :
    s' = s := by
  unfold drawCard at h
  split at h
  · injection h with h1 h2
    exact h1.symm
  · rename_i hphneg
    have hph : s.phase = .inProgress := by
      by_contra hc
      exact hphneg (by simp [hc])
    split at h
    · injection h with h1 h2
      exact h1.symm
    · rename_i hens
      obtain ⟨tn, ht, hact⟩ := ensureActivePlayer_none.mp hens
      split at h
      · injection h with h1 h2
        exact h1.symm
      · rename_i tn2 ht2
        split at h
        · injection h with h1 h2
          exact h1.symm
        · split at h
          · injection h with h1 h2
            exact h1.symm
          · simp only [] at h
            split at h
            · rename_i e2 hsome
              by_cases hd0 : s.drawPile.length = 0
              · rw [if_pos hd0] at hsome h
                have hre : replenishDrawPile s random =
                    ((replenishDrawPile s random).1, some e2) := by
                  rw [← hsome]
                injection h with h1 h2
                rw [← h1]
                exact replenish_err hre
              · rw [if_neg hd0] at hsome
                simp at hsome
            · rename_i hnone
              split at h
              · rename_i pile2 hpop0
                exfalso
                have hdp := drawTopCard_none hpop0
                by_cases hd0 : s.drawPile.length = 0
                · rw [if_pos hd0] at hnone hdp
                  have hre : replenishDrawPile s random =
                      ((replenishDrawPile s random).1, none) := by
                    rw [← hnone]
                  exact replenish_none_drawPile hre hdp
                · rw [if_neg hd0] at hdp
                  exact hd0 (by rw [show s.drawPile = [] from hdp]; rfl)
              · rename_i card2 pile2 hpop
                split at h
                · rename_i hfnone
                  exfalso
                  rcases hr with hlob | hre
                  · have hlinv := lobby_inv hlob
                    rcases hlinv.phase_lobby with h1 | h1 <;> rw [h1] at hph <;>
                      cases hph
                  · have hinv := reachable_inv hre
                    have hmem : pid ∈ s.playerOrder := by
                      rw [← hact]
                      exact hinv.active_in_order tn ht
                    have hsome2 := hinv.order_seated pid hmem
                    have hpl : (if s.drawPile.length = 0
                        then replenishDrawPile s random
                        else (s, none)).1.players = s.players := by
                      by_cases hd0 : s.drawPile.length = 0
                      · rw [if_pos hd0]
                        have hre2 : replenishDrawPile s random =
                            ((replenishDrawPile s random).1,
                             (replenishDrawPile s random).2) := rfl
                        exact (replenish_players hre2).1
                      · rw [if_neg hd0]
                    have hconv : findPlayerIndex { (if s.drawPile.length = 0
                        then replenishDrawPile s random
                        else (s, none)).1 with drawPile := pile2 } pid =
                        findPlayerIndex s pid := by
                      apply findPlayerIndex_players_congr
                      show ((if s.drawPile.length = 0
                        then replenishDrawPile s random
                        else (s, none)).1.players).map PlayerState.id = _
                      rw [hpl]
                    rw [hconv] at hfnone
                    rw [hfnone] at hsome2
                    simp at hsome2
                · simp at h

theorem joinGame_ok_inv {s s' : GameState} {pid : PlayerId} {t : Nat}
    (h : joinGame s pid t = (s', .ok ())) :
    (s.phase = .waitingForPlayer ∨ s.phase = .readyToStart) ∧
    (findPlayerIndex s pid).isSome = false ∧ s.players.length < 2 ∧
    s' = { s with
        players := s.players ++ [⟨pid, []⟩]
        playerOrder := s.playerOrder ++ [pid]
        phase := if s.players.length + 1 = 2 then GamePhase.readyToStart
                 else GamePhase.waitingForPlayer
        updatedAt := t } := by
  unfold joinGame at h
  split at h
  · simp at h
  · rename_i hphase
    split at h
    · simp at h
    · rename_i hfind
      split at h
      · simp at h
      · rename_i hfull
        injection h with h1 h2
        refine ⟨?_, ?_, by omega, h1.symm⟩
        · by_cases h1 : s.phase = .waitingForPlayer
          · exact Or.inl h1
          · by_cases h2 : s.phase = .readyToStart
            · exact Or.inr h2
            · exact absurd ⟨h1, h2⟩ hphase
        · simpa using hfind

theorem startGame_ok_inv {s s' : GameState} {random : RandomFn} {t : Nat}
    (h : startGame s random t = (s', .ok ())) :
    2 ≤ s.players.length ∧ s.phase ≠ .inProgress ∧ s.phase ≠ .finished ∧
    ∃ (s1 : GameState) (deck2 : List Card) (c : Card), s' = { s1 with
        drawPile := deck2
        discardPile := [c]
        currentColor := some c.color
        currentValue := some c.value
        phase := .inProgress
        winnerId := none
        turn := some ⟨s1.playerOrder.getD 0 "", false⟩
        updatedAt := t } := by
  unfold startGame at h
  split at h
  · simp at h
  · rename_i hlen
    split at h
    · simp at h
    · rename_i hphase
      refine ⟨by omega, fun hc => hphase (Or.inl hc), fun hc => hphase (Or.inr hc), ?_⟩
      simp only [] at h
      rcases hdeal : dealRounds CARDS_PER_PLAYER s (shuffle createDeck random)
        with ⟨s1, deck2, ok⟩
      rw [hdeal] at h
      cases ok
      · simp at h
      · simp only [] at h
        rcases hpop : drawTopCard deck2 with ⟨copt, deck3⟩
        rw [hpop] at h
        cases copt
        · simp at h
        · rename_i c
          injection h with h1 h2
          exact ⟨s1, deck3, c, h1.symm⟩

/-! ## A concrete run of the engine -/

theorem demoLobby_lobbyReachable : LobbyReachable demoLobby :=
  LobbyReachable.join "bob" 1 (LobbyReachable.create "R1" "alice" 0) rfl

theorem demoStarted_start_eq : startGame demoLobby rand0 2 = (demoStarted, .ok ()) := by
  obtain ⟨s1, deck', c, heq, -, -, -⟩ :=
    startGame_lobby_eq (lobby_inv demoLobby_lobbyReachable) (by decide) rand0 2
  unfold demoStarted
  rw [heq]

theorem demoStarted_reachable : Reachable demoStarted :=
  Reachable.start rand0 2 demoLobby_lobbyReachable demoStarted_start_eq

/-! ## Per-hand card-id uniqueness machinery -/

theorem filter_id_le_one {l : List Card} (h : (l.map Card.id).Nodup) (cid : String) :
    (l.filter (fun c => decide (c.id = cid))).length ≤ 1 := by
  induction l with
  | nil => simp
  | cons a as ih =>
    simp only [List.map_cons, List.nodup_cons] at h
    obtain ⟨hnot, hnd⟩ := h
    by_cases hc : a.id = cid
    · have hrest : as.filter (fun c => decide (c.id = cid)) = [] := by
        rw [List.filter_eq_nil_iff]
        intro b hb
        simp only [decide_eq_true_eq]
        intro hbid
        apply hnot
        rw [← hc] at hbid
        rw [← hbid]
        exact List.mem_map_of_mem Card.id hb
      simp [List.filter_cons, hc, hrest]
    · simp only [List.filter_cons, decide_eq_true_eq, hc, if_false]
      exact ih hnd

/-! ## Claim theorems -/

/-- C1: for every state reachable by a successful `startGame` followed by any
sequence of engine operations (`playCard`, `drawCard`, `passTurn`), the
combined multiset of cards across every hand, the draw pile and the discard
pile equals the freshly built deck — no card is created or destroyed — and its
color/rank composition is exactly the canonical 76-card composition (per
color: one rank-0 card and two of each rank 1–9). -/
theorem C1_total_cards_conserved (s : GameState) (h : Reachable s) :
    cardMultiset s = (createDeck : Multiset Card) ∧
    (cardMultiset s).map (fun c => (c.color, c.value)) = canonicalComposition := by
  have hc := (reachable_inv h).cards
  refine ⟨hc, ?_⟩
  rw [hc]
  decide

theorem C1_total_cards_conserved_witness :
    cardMultiset demoStarted = (createDeck : Multiset Card) ∧
    (cardMultiset demoStarted).map (fun c => (c.color, c.value)) =
      canonicalComposition :=
  C1_total_cards_conserved demoStarted demoStarted_reachable

theorem advanceTurn_fields (s : GameState) :
    (advanceTurn s).discardPile = s.discardPile ∧
    (advanceTurn s).currentColor = s.currentColor ∧
    (advanceTurn s).currentValue = s.currentValue := by
  unfold advanceTurn
  split
  · exact ⟨rfl, rfl, rfl⟩
  · exact ⟨rfl, rfl, rfl⟩

theorem advanceTurn_players (s : GameState) : (advanceTurn s).players = s.players := by
  unfold advanceTurn
  split <;> rfl

theorem advanceTurn_phase (s : GameState) : (advanceTurn s).phase = s.phase := by
  unfold advanceTurn
  split <;> rfl

theorem advanceTurn_turn {s : GameState} {tn : TurnState} (h : s.turn = some tn) :
    (advanceTurn s).turn = some ⟨getNextPlayerId s tn.activePlayerId, false⟩ := by
  unfold advanceTurn
  rw [h]

theorem playCard_top {s s' : GameState} {pid : PlayerId} {cid : String} {t : Nat}
    (h : playCard s pid cid t = (s', .ok ())) :
    ∃ c, s'.discardPile.getLast? = some c ∧
      s'.currentColor = some c.color ∧ s'.currentValue = some c.value := by
  obtain ⟨hph, tn, ht, hact, i, hfind, k, hfk, hplay, hs'⟩ := playCard_ok_inv h
  simp only [playCardSuccState] at hs'
  split at hs'
  · subst hs'
    exact ⟨(s.players.getD i defaultPlayer).hand.getD k defaultCard, by simp, rfl, rfl⟩
  · subst hs'
    obtain ⟨h1, h2, h3⟩ := advanceTurn_fields { s with
        players := s.players.set i
          { s.players.getD i defaultPlayer with
              hand := (s.players.getD i defaultPlayer).hand.eraseIdx k }
        discardPile := s.discardPile ++
          [(s.players.getD i defaultPlayer).hand.getD k defaultCard]
        currentColor := some ((s.players.getD i defaultPlayer).hand.getD k
          defaultCard).color
        currentValue := some ((s.players.getD i defaultPlayer).hand.getD k
          defaultCard).value }
    refine ⟨(s.players.getD i defaultPlayer).hand.getD k defaultCard, ?_, ?_, ?_⟩
    · show (advanceTurn _).discardPile.getLast? = _
      rw [h1]
      simp
    · show (advanceTurn _).currentColor = _
      rw [h2]
    · show (advanceTurn _).currentValue = _
      rw [h3]

theorem startGame_top {s s' : GameState} {random : RandomFn} {t : Nat}
    (h : startGame s random t = (s', .ok ())) :
    ∃ c, s'.discardPile.getLast? = some c ∧
      s'.currentColor = some c.color ∧ s'.currentValue = some c.value := by
  obtain ⟨-, -, -, s1, deck2, c, hs'⟩ := startGame_ok_inv h
  subst hs'
  exact ⟨c, rfl, rfl, rfl⟩

/-- C2: in every reachable state, `currentColor`/`currentValue` are defined
iff the phase is `in-progress` or `finished`, and when defined they equal the
discard top's color and rank; moreover every successful `playCard` and every
successful `startGame` re-establishes that equality. -/
theorem C2_current_matches_discard_top (s : GameState) (h : EngineReachable s) :
    ((s.currentColor.isSome ∧ s.currentValue.isSome) ↔ phaseStarted s) ∧
    (phaseStarted s → ∃ c, s.discardPile.getLast? = some c ∧
      s.currentColor = some c.color ∧ s.currentValue = some c.value) ∧
    (∀ (s0 s' : GameState) (pid : PlayerId) (cid : String) (t : Nat),
      playCard s0 pid cid t = (s', .ok ()) →
      ∃ c, s'.discardPile.getLast? = some c ∧
        s'.currentColor = some c.color ∧ s'.currentValue = some c.value) ∧
    (∀ (s0 s' : GameState) (random : RandomFn) (t : Nat),
      startGame s0 random t = (s', .ok ()) →
      ∃ c, s'.discardPile.getLast? = some c ∧
        s'.currentColor = some c.color ∧ s'.currentValue = some c.value) := by
  refine ⟨?_, ?_, fun s0 s' pid cid t hp => playCard_top hp,
    fun s0 s' random t hs => startGame_top hs⟩
  · rcases h with hlob | hre
    · have linv := lobby_inv hlob
      constructor
      · intro ⟨h1, _⟩
        rw [linv.color_none] at h1
        simp at h1
      · intro hst
        unfold phaseStarted at hst
        rcases linv.phase_lobby with h1 | h1 <;> rw [h1] at hst <;>
          rcases hst with h2 | h2 <;> cases h2
    · have inv := reachable_inv hre
      obtain ⟨c, h1, h2, h3⟩ := inv.top
      constructor
      · intro _
        exact inv.started
      · intro _
        rw [h2, h3]
        exact ⟨rfl, rfl⟩
  · rcases h with hlob | hre
    · intro hst
      have linv := lobby_inv hlob
      unfold phaseStarted at hst
      rcases linv.phase_lobby with h1 | h1 <;> rw [h1] at hst <;>
        rcases hst with h2 | h2 <;> cases h2
    · intro _
      exact (reachable_inv hre).top

theorem C2_current_matches_discard_top_witness :
    ((demoStarted.currentColor.isSome ∧ demoStarted.currentValue.isSome) ↔
      phaseStarted demoStarted) ∧
    (phaseStarted demoStarted → ∃ c, demoStarted.discardPile.getLast? = some c ∧
      demoStarted.currentColor = some c.color ∧
      demoStarted.currentValue = some c.value) ∧
    (∀ (s0 s' : GameState) (pid : PlayerId) (cid : String) (t : Nat),
      playCard s0 pid cid t = (s', .ok ()) →
      ∃ c, s'.discardPile.getLast? = some c ∧
        s'.currentColor = some c.color ∧ s'.currentValue = some c.value) ∧
    (∀ (s0 s' : GameState) (random : RandomFn) (t : Nat),
      startGame s0 random t = (s', .ok ()) →
      ∃ c, s'.discardPile.getLast? = some c ∧
        s'.currentColor = some c.color ∧ s'.currentValue = some c.value) :=
  C2_current_matches_discard_top demoStarted (Or.inr demoStarted_reachable)

/-- C10: `createDeck` mints the pairwise-distinct ids `card-0` … `card-75`;
in every reachable state all cards across hands and piles have
pairwise-distinct ids, so looking a card up by id inside any hand is
unambiguous (at most one match). -/
theorem C10_card_ids_unique (s : GameState) (h : Reachable s) :
    (createDeck.map Card.id = (List.range 76).map cardId ∧
      (createDeck.map Card.id).Nodup) ∧
    ((cardMultiset s).map Card.id).Nodup ∧
    ∀ p ∈ s.players, (p.hand.map Card.id).Nodup ∧
      ∀ cid : String, (p.hand.filter (fun c => decide (c.id = cid))).length ≤ 1 := by
  have hdecknodup : (createDeck.map Card.id).Nodup := by decide
  have hall : ((cardMultiset s).map Card.id).Nodup := by
    rw [(reachable_inv h).cards]
    show ((createDeck.map Card.id : List String) : Multiset String).Nodup
    exact Multiset.coe_nodup.mpr hdecknodup
  refine ⟨⟨by decide, hdecknodup⟩, hall, ?_⟩
  have hlist : ((allCardsL s).map Card.id).Nodup := by
    have h2 : (((allCardsL s).map Card.id : List String) : Multiset String).Nodup := hall
    exact Multiset.coe_nodup.mp h2
  intro p hp
  have hhand : (p.hand.map Card.id).Nodup := by
    have h3 : ((handsL s).map Card.id).Nodup := by
      unfold allCardsL at hlist
      simp only [List.map_append] at hlist
      exact (hlist.of_append_left).of_append_left
    obtain ⟨pre, post, hsplit⟩ := List.append_of_mem hp
    unfold handsL at h3
    rw [hsplit] at h3
    simp only [List.map_append, List.map_cons, List.flatten_append,
      List.flatten_cons] at h3
    exact (h3.of_append_right).of_append_left
  exact ⟨hhand, fun cid => filter_id_le_one hhand cid⟩

theorem C10_card_ids_unique_witness :
    (createDeck.map Card.id = (List.range 76).map cardId ∧
      (createDeck.map Card.id).Nodup) ∧
    ((cardMultiset demoStarted).map Card.id).Nodup ∧
    ∀ p ∈ demoStarted.players, (p.hand.map Card.id).Nodup ∧
      ∀ cid : String,
        (p.hand.filter (fun c => decide (c.id = cid))).length ≤ 1 :=
  C10_card_ids_unique demoStarted demoStarted_reachable

theorem ensureActivePlayer_cases (s : GameState) (pid : PlayerId) :
    ensureActivePlayer s pid = none ∨
    ensureActivePlayer s pid =
      some ⟨.NOT_PLAYER_TURN, "Сейчас ход другого игрока."⟩ := by
  unfold ensureActivePlayer
  cases s.turn with
  | none => exact Or.inr rfl
  | some tn =>
    simp only []
    by_cases h : tn.activePlayerId = pid
    · rw [if_pos h]
      exact Or.inl rfl
    · rw [if_neg h]
      exact Or.inr rfl

theorem getNextPlayerId_congr {s1 s2 : GameState} (h : s1.playerOrder = s2.playerOrder)
    (cur : PlayerId) : getNextPlayerId s1 cur = getNextPlayerId s2 cur := by
  unfold getNextPlayerId
  rw [h]

/-- C3: `playCard` checks its preconditions in order — phase `in-progress`
(else `GAME_NOT_READY`), caller is the active player (else `NOT_PLAYER_TURN`),
the named card is in the caller's hand (else `CARD_NOT_FOUND`), and the card
matches the current color or rank (else `CARD_NOT_PLAYABLE`) — and on success
removes the card from the hand, appends it as the new discard top, sets
`currentColor`/`currentValue` to the played card's; if the hand is then empty
the phase becomes `finished`, the winner is set and the turn cleared,
otherwise the turn advances to the next player in turn order (wrapping) with
`hasDrawnCard` reset to false. -/
theorem C3_playCard_contract (s : GameState) (pid : PlayerId) (cid : String)
    (t : Nat) :
    (s.phase ≠ .inProgress →
      playCard s pid cid t =
        (s, .err ⟨.GAME_NOT_READY, "Партия ещё не запущена."⟩)) ∧
    (s.phase = .inProgress →
      (¬∃ tn, s.turn = some tn ∧ tn.activePlayerId = pid) →
      playCard s pid cid t =
        (s, .err ⟨.NOT_PLAYER_TURN, "Сейчас ход другого игрока."⟩)) ∧
    (∀ tn i, s.phase = .inProgress → s.turn = some tn →
      tn.activePlayerId = pid → findPlayerIndex s pid = some i →
      firstIdx (fun card => decide (card.id = cid))
        (s.players.getD i defaultPlayer).hand = none →
      playCard s pid cid t =
        (s, .err ⟨.CARD_NOT_FOUND, "Такой карты нет в руке."⟩)) ∧
    (∀ tn i k, s.phase = .inProgress → s.turn = some tn →
      tn.activePlayerId = pid → findPlayerIndex s pid = some i →
      firstIdx (fun card => decide (card.id = cid))
        (s.players.getD i defaultPlayer).hand = some k →
      isCardPlayable ((s.players.getD i defaultPlayer).hand.getD k defaultCard)
        s.currentColor s.currentValue = false →
      playCard s pid cid t =
        (s, .err ⟨.CARD_NOT_PLAYABLE, "Эту карту нельзя сыграть сейчас."⟩)) ∧
    (∀ tn i k, s.phase = .inProgress → s.turn = some tn →
      tn.activePlayerId = pid → findPlayerIndex s pid = some i →
      firstIdx (fun card => decide (card.id = cid))
        (s.players.getD i defaultPlayer).hand = some k →
      isCardPlayable ((s.players.getD i defaultPlayer).hand.getD k defaultCard)
        s.currentColor s.currentValue = true →
      playCard s pid cid t = (playCardSuccState s pid i k t, .ok ()) ∧
      (playCardSuccState s pid i k t).discardPile =
        s.discardPile ++ [(s.players.getD i defaultPlayer).hand.getD k defaultCard] ∧
      (playCardSuccState s pid i k t).currentColor =
        some ((s.players.getD i defaultPlayer).hand.getD k defaultCard).color ∧
      (playCardSuccState s pid i k t).currentValue =
        some ((s.players.getD i defaultPlayer).hand.getD k defaultCard).value ∧
      (playCardSuccState s pid i k t).players =
        s.players.set i { s.players.getD i defaultPlayer with
          hand := (s.players.getD i defaultPlayer).hand.eraseIdx k } ∧
      ((s.players.getD i defaultPlayer).hand.eraseIdx k = [] →
        (playCardSuccState s pid i k t).phase = .finished ∧
        (playCardSuccState s pid i k t).winnerId = some pid ∧
        (playCardSuccState s pid i k t).turn = none) ∧
      ((s.players.getD i defaultPlayer).hand.eraseIdx k ≠ [] →
        (playCardSuccState s pid i k t).phase = s.phase ∧
        (playCardSuccState s pid i k t).turn =
          some ⟨getNextPlayerId s pid, false⟩)) := by
  refine ⟨?_, ?_, ?_, ?_, ?_⟩
  · intro hph
    unfold playCard
    rw [if_pos hph]
  · intro hph hna
    have hens : ensureActivePlayer s pid =
        some ⟨.NOT_PLAYER_TURN, "Сейчас ход другого игрока."⟩ := by
      rcases ensureActivePlayer_cases s pid with h0 | h0
      · exact absurd (ensureActivePlayer_none.mp h0) hna
      · exact h0
    unfold playCard
    rw [if_neg (by simp [hph])]
    simp only [hens]
  · intro tn i hph ht hact hi hnone
    have hens : ensureActivePlayer s pid = none :=
      ensureActivePlayer_none.mpr ⟨tn, ht, hact⟩
    unfold playCard
    rw [if_neg (by simp [hph])]
    simp only [hens, hi, hnone]
  · intro tn i k hph ht hact hi hk hnotplay
    have hens : ensureActivePlayer s pid = none :=
      ensureActivePlayer_none.mpr ⟨tn, ht, hact⟩
    unfold playCard
    rw [if_neg (by simp [hph])]
    simp only [hens, hi, hk]
    rw [if_pos (fun hb => by rw [hnotplay] at hb; simp at hb)]
  · intro tn i k hph ht hact hi hk hplay
    refine ⟨playCard_ok_fwd hph ht hact hi hk hplay, ?_⟩
    simp only [playCardSuccState]
    by_cases hemp : ((s.players.getD i defaultPlayer).hand.eraseIdx k).length = 0
    · rw [if_pos hemp]
      have hnil : (s.players.getD i defaultPlayer).hand.eraseIdx k = [] :=
        List.length_eq_zero.mp hemp
      exact ⟨rfl, rfl, rfl, rfl, fun _ => ⟨rfl, rfl, rfl⟩,
        fun hc => absurd hnil hc⟩
    · rw [if_neg hemp]
      have hne : (s.players.getD i defaultPlayer).hand.eraseIdx k ≠ [] := by
        intro hnil
        exact hemp (by rw [hnil]; rfl)
      have ht2 : ({ s with
          players := s.players.set i
            { id := (s.players.getD i defaultPlayer).id
              hand := (s.players.getD i defaultPlayer).hand.eraseIdx k }
          discardPile := s.discardPile ++
            [(s.players.getD i defaultPlayer).hand.getD k defaultCard]
          currentColor := some ((s.players.getD i defaultPlayer).hand.getD k
            defaultCard).color
          currentValue := some ((s.players.getD i defaultPlayer).hand.getD k
            defaultCard).value } : GameState).turn = some tn := ht
      have hadv2 := advanceTurn_turn ht2
      refine ⟨?_, ?_, ?_, ?_, fun hc => absurd hc hne, fun _ => ⟨?_, ?_⟩⟩
      · show (advanceTurn _).discardPile = _
        rw [(advanceTurn_fields _).1]
      · show (advanceTurn _).currentColor = _
        rw [(advanceTurn_fields _).2.1]
      · show (advanceTurn _).currentValue = _
        rw [(advanceTurn_fields _).2.2]
      · show (advanceTurn _).players = _
        rw [advanceTurn_players]
      · show (advanceTurn _).phase = _
        rw [advanceTurn_phase]
      · show (advanceTurn _).turn = _
        rw [hadv2, hact]
        have hg : getNextPlayerId { s with
            players := s.players.set i
              { id := (s.players.getD i defaultPlayer).id
                hand := (s.players.getD i defaultPlayer).hand.eraseIdx k }
            discardPile := s.discardPile ++
              [(s.players.getD i defaultPlayer).hand.getD k defaultCard]
            currentColor := some ((s.players.getD i defaultPlayer).hand.getD k
              defaultCard).color
            currentValue := some ((s.players.getD i defaultPlayer).hand.getD k
              defaultCard).value } pid = getNextPlayerId s pid :=
          getNextPlayerId_congr rfl pid
        rw [hg]

/-- The started position built by `createStartedState` in game.test.ts. -/
def testStartedState : GameState :=
  { roomId := "room-1"
    phase := .inProgress
    players := [⟨"alice", [⟨"a-1", .red, 3⟩, ⟨"a-2", .green, 1⟩]⟩,
                ⟨"bob", [⟨"b-1", .yellow, 9⟩]⟩]
    playerOrder := ["alice", "bob"]
    drawPile := [⟨"deck-1", .blue, 5⟩, ⟨"deck-2", .red, 7⟩]
    discardPile := [⟨"d-aux-1", .yellow, 8⟩, ⟨"d-aux-2", .blue, 2⟩,
                    ⟨"d-1", .red, 5⟩]
    currentColor := some .red
    currentValue := some 5
    turn := some ⟨"alice", false⟩
    winnerId := none
    createdAt := 1000
    updatedAt := 1000 }

theorem C3_playCard_contract_witness :
    playCard testStartedState "alice" "a-1" 5 =
      (playCardSuccState testStartedState "alice" 0 0 5, .ok ()) ∧
    playCard testStartedState "alice" "a-2" 5 =
      (testStartedState, .err ⟨.CARD_NOT_PLAYABLE, "Эту карту нельзя сыграть сейчас."⟩) ∧
    playCard testStartedState "bob" "b-1" 5 =
      (testStartedState, .err ⟨.NOT_PLAYER_TURN, "Сейчас ход другого игрока."⟩) ∧
    playCard testStartedState "alice" "zzz" 5 =
      (testStartedState, .err ⟨.CARD_NOT_FOUND, "Такой карты нет в руке."⟩) ∧
    playCard demoLobby "alice" "a-1" 5 =
      (demoLobby, .err ⟨.GAME_NOT_READY, "Партия ещё не запущена."⟩) := by
  refine ⟨((C3_playCard_contract testStartedState "alice" "a-1" 5).2.2.2.2
      ⟨"alice", false⟩ 0 0 rfl rfl rfl (by decide) (by decide) (by decide)).1,
    (C3_playCard_contract testStartedState "alice" "a-2" 5).2.2.2.1
      ⟨"alice", false⟩ 0 1 rfl rfl rfl (by decide) (by decide) (by decide),
    (C3_playCard_contract testStartedState "bob" "b-1" 5).2.1 rfl ?_,
    (C3_playCard_contract testStartedState "alice" "zzz" 5).2.2.1
      ⟨"alice", false⟩ 0 rfl rfl rfl (by decide) (by decide),
    (C3_playCard_contract demoLobby "alice" "a-1" 5).1 (by decide)⟩
  rintro ⟨tn, htn, hact⟩
  have h0 : testStartedState.turn = some ⟨"alice", false⟩ := rfl
  rw [h0] at htn
  rw [← Option.some.inj htn] at hact
  exact absurd hact (by decide)

/-- C4: `drawCard` fails with `ALREADY_DREW_CARD` when the active player has
already drawn this turn, fails with `MUST_DRAW_FIRST` when the active player
holds a card matching the current color or value, and on success moves the top
draw-pile card into the caller's hand (reshuffling the discard pile first when
the draw pile is empty), sets `hasDrawnCard`, leaves the active player and the
phase unchanged, and returns the drawn card with its immediate playability. -/
theorem C4_drawCard_contract (s : GameState) (pid : PlayerId) (random : RandomFn)
    (t : Nat) :
    (∀ tn, s.phase = .inProgress → s.turn = some tn → tn.activePlayerId = pid →
      tn.hasDrawnCard = true →
      drawCard s pid random t =
        (s, .err ⟨.ALREADY_DREW_CARD, "За ход можно взять только одну карту."⟩)) ∧
    (∀ tn i, s.phase = .inProgress → s.turn = some tn → tn.activePlayerId = pid →
      tn.hasDrawnCard = false → s.currentColor ≠ none → s.currentValue ≠ none →
      findPlayerIndex s pid = some i →
      (∃ card ∈ (s.players.getD i defaultPlayer).hand,
        isCardPlayable card s.currentColor s.currentValue = true) →
      drawCard s pid random t =
        (s, .err ⟨.MUST_DRAW_FIRST, "Есть доступные ходы — сыграйте карту."⟩)) ∧
    (∀ (s' : GameState) (c : Card) (b : Bool),
      drawCard s pid random t = (s', .ok (c, b)) →
      s.phase = .inProgress ∧
      ∃ tn, s.turn = some tn ∧ tn.activePlayerId = pid ∧ tn.hasDrawnCard = false ∧
      ∃ s1, ((s.drawPile = [] ∧ replenishDrawPile s random = (s1, none)) ∨
             (s.drawPile ≠ [] ∧ s1 = s)) ∧
      ∃ pile', s1.drawPile = pile' ++ [c] ∧
      ∃ i, findPlayerIndex s1 pid = some i ∧
        s' = { s1 with
            drawPile := pile'
            players := s1.players.set i
              ((fun p => { p with hand := p.hand ++ [c] })
                (s1.players.getD i defaultPlayer))
            turn := some ⟨pid, true⟩
            updatedAt := t } ∧
        s'.phase = s.phase ∧
        b = isCardPlayable c s.currentColor s.currentValue) := by
  refine ⟨?_, ?_, ?_⟩
  · intro tn hph ht hact hdrawn
    have hens : ensureActivePlayer s pid = none :=
      ensureActivePlayer_none.mpr ⟨tn, ht, hact⟩
    unfold drawCard
    rw [if_neg (by simp [hph])]
    simp only [hens, ht]
    rw [if_pos hdrawn]
  · intro tn i hph ht hact hdrawn hcc hcv hi hcard
    have hens : ensureActivePlayer s pid = none :=
      ensureActivePlayer_none.mpr ⟨tn, ht, hact⟩
    have hlist : listPlayableCards s pid =
        .ok ((s.players.getD i defaultPlayer).hand.filter
          (fun card => isCardPlayable card s.currentColor s.currentValue)) := by
      unfold listPlayableCards
      rw [if_neg (by simp [hcc, hcv])]
      simp only [hi]
    have hfil : (s.players.getD i defaultPlayer).hand.filter
        (fun card => isCardPlayable card s.currentColor s.currentValue) ≠ [] := by
      intro hnil
      rw [List.filter_eq_nil_iff] at hnil
      obtain ⟨card, hmem, hp⟩ := hcard
      exact hnil card hmem hp
    have hcheck : playableCheck (listPlayableCards s pid) = true := by
      rw [hlist]
      unfold playableCheck
      simp only [decide_eq_true_eq]
      exact List.length_pos.mpr hfil
    unfold drawCard
    rw [if_neg (by simp [hph])]
    simp only [hens, ht]
    rw [if_neg (by simp [hdrawn]), if_pos hcheck]
  · intro s' c b h
    obtain ⟨hph, tn, ht, hact, hdrawn, hnoplay, s1, hrepl, pile', hpop, i, hi, hs',
      hpb⟩ := drawCard_ok_inv h
    refine ⟨hph, tn, ht, hact, hdrawn, s1, ?_, pile', drawTopCard_some_eq hpop,
      i, hi, ?_, ?_, ?_⟩
    · by_cases hd0 : s.drawPile.length = 0
      · rw [if_pos hd0] at hrepl
        exact Or.inl ⟨List.length_eq_zero.mp hd0, hrepl⟩
      · rw [if_neg hd0] at hrepl
        injection hrepl with h1 h2
        refine Or.inr ⟨?_, h1.symm⟩
        intro hnil
        exact hd0 (by rw [hnil]; rfl)
    · rw [hs', hact]
    · rw [hs']
      show s1.phase = s.phase
      by_cases hd0 : s.drawPile.length = 0
      · rw [if_pos hd0] at hrepl
        exact (replenish_players hrepl).2.1
      · rw [if_neg hd0] at hrepl
        injection hrepl with h1 h2
        rw [← h1]
    · rw [hpb]
      by_cases hd0 : s.drawPile.length = 0
      · rw [if_pos hd0] at hrepl
        obtain ⟨-, -, -, -, hc1, hc2⟩ := replenish_players hrepl
        rw [hc1, hc2]
      · rw [if_neg hd0] at hrepl
        injection hrepl with h1 h2
        rw [← h1]

def testDrawnState : GameState :=
  { testStartedState with turn := some ⟨"alice", true⟩ }

def testDrawState : GameState :=
  { testStartedState with
      players := [⟨"alice", [⟨"a-2", .green, 1⟩]⟩, ⟨"bob", [⟨"b-1", .yellow, 9⟩]⟩] }

theorem C4_drawCard_contract_witness :
    drawCard testDrawnState "alice" rand0 5 =
      (testDrawnState, .err ⟨.ALREADY_DREW_CARD, "За ход можно взять только одну карту."⟩) ∧
    drawCard testStartedState "alice" rand0 5 =
      (testStartedState, .err ⟨.MUST_DRAW_FIRST, "Есть доступные ходы — сыграйте карту."⟩) ∧
    (testDrawState.phase = .inProgress ∧
      ∃ tn, testDrawState.turn = some tn ∧ tn.activePlayerId = "alice" ∧
        tn.hasDrawnCard = false ∧
      ∃ s1, ((testDrawState.drawPile = [] ∧
              replenishDrawPile testDrawState rand0 = (s1, none)) ∨
             (testDrawState.drawPile ≠ [] ∧ s1 = testDrawState)) ∧
      ∃ pile', s1.drawPile = pile' ++ [(⟨"deck-2", .red, 7⟩ : Card)] ∧
      ∃ i, findPlayerIndex s1 "alice" = some i ∧
        (drawCard testDrawState "alice" rand0 5).1 = { s1 with
            drawPile := pile'
            players := s1.players.set i
              ((fun p => { p with hand := p.hand ++ [(⟨"deck-2", .red, 7⟩ : Card)] })
                (s1.players.getD i defaultPlayer))
            turn := some ⟨"alice", true⟩
            updatedAt := 5 } ∧
        (drawCard testDrawState "alice" rand0 5).1.phase = testDrawState.phase ∧
        true = isCardPlayable ⟨"deck-2", .red, 7⟩ testDrawState.currentColor
          testDrawState.currentValue) := by
  refine ⟨?_, ?_, ?_⟩
  · exact (C4_drawCard_contract testDrawnState "alice" rand0 5).1
      ⟨"alice", true⟩ rfl rfl rfl rfl
  · exact (C4_drawCard_contract testStartedState "alice" rand0 5).2.1
      ⟨"alice", false⟩ 0 rfl rfl rfl rfl (by decide) (by decide) rfl
      ⟨⟨"a-1", .red, 3⟩, by decide, by decide⟩
  · exact (C4_drawCard_contract testDrawState "alice" rand0 5).2.2
      ((drawCard testDrawState "alice" rand0 5).1) ⟨"deck-2", .red, 7⟩ true rfl

theorem dealRoundRev_two {p0 p1 : PlayerId} (hne : p0 ≠ p1) (s : GameState)
    (h0 h1 : List Card) (a b : Card) (r : List Card)
    (hp : s.players = [⟨p0, h0⟩, ⟨p1, h1⟩]) (ho : s.playerOrder = [p0, p1]) :
    dealRoundRev s.playerOrder s (a :: b :: r) =
      ({ s with players := [⟨p0, h0 ++ [a]⟩, ⟨p1, h1 ++ [b]⟩] }, r, true) := by
  rw [ho]
  simp [dealRoundRev, giveCard, findPlayerIndex, firstIdx, hp, ho, hne]

theorem dealRoundsRev_two_succ {p0 p1 : PlayerId} (hne : p0 ≠ p1) (n : Nat)
    (s : GameState) (h0 h1 : List Card) (a b : Card) (r : List Card)
    (hp : s.players = [⟨p0, h0⟩, ⟨p1, h1⟩]) (ho : s.playerOrder = [p0, p1]) :
    dealRoundsRev (n + 1) s (a :: b :: r) =
      dealRoundsRev n { s with players := [⟨p0, h0 ++ [a]⟩, ⟨p1, h1 ++ [b]⟩] } r := by
  have hstep := dealRoundRev_two hne s h0 h1 a b r hp ho
  simp only [dealRoundsRev, hstep]

theorem dealRoundsRev_seven {p0 p1 : PlayerId} (hne : p0 ≠ p1) (s : GameState)
    (c1 c2 c3 c4 c5 c6 c7 c8 c9 c10 c11 c12 c13 c14 : Card) (r : List Card)
    (hp : s.players = [⟨p0, []⟩, ⟨p1, []⟩]) (ho : s.playerOrder = [p0, p1]) :
    dealRoundsRev 7 s
        (c1 :: c2 :: c3 :: c4 :: c5 :: c6 :: c7 :: c8 :: c9 :: c10 :: c11 :: c12 ::
          c13 :: c14 :: r) =
      ({ s with players := [⟨p0, [c1, c3, c5, c7, c9, c11, c13]⟩,
                            ⟨p1, [c2, c4, c6, c8, c10, c12, c14]⟩] }, r, true) := by
  refine Eq.trans (dealRoundsRev_two_succ hne 6 s [] [] c1 c2 _ hp ho) ?_
  refine Eq.trans (dealRoundsRev_two_succ hne 5 _ [c1] [c2] c3 c4 _ rfl ho) ?_
  refine Eq.trans (dealRoundsRev_two_succ hne 4 _ [c1, c3] [c2, c4] c5 c6 _ rfl ho) ?_
  refine Eq.trans
    (dealRoundsRev_two_succ hne 3 _ [c1, c3, c5] [c2, c4, c6] c7 c8 _ rfl ho) ?_
  refine Eq.trans
    (dealRoundsRev_two_succ hne 2 _ [c1, c3, c5, c7] [c2, c4, c6, c8] c9 c10 _ rfl ho) ?_
  refine Eq.trans (dealRoundsRev_two_succ hne 1 _ [c1, c3, c5, c7, c9]
    [c2, c4, c6, c8, c10] c11 c12 _ rfl ho) ?_
  refine Eq.trans (dealRoundsRev_two_succ hne 0 _ [c1, c3, c5, c7, c9, c11]
    [c2, c4, c6, c8, c10, c12] c13 c14 _ rfl ho) ?_
  rfl

theorem exists_cons_of_len {α : Type} (l : List α) (n : Nat) (h : l.length = n + 1) :
    ∃ a t, l = a :: t ∧ t.length = n := by
  cases l with
  | nil => simp at h
  | cons a t => exact ⟨a, t, rfl, by simpa using h⟩

/-- C5: from any lobby-reachable state with exactly two joined players,
`startGame` succeeds for every random source: popping the shuffled 76-card
deck from its top (the reversed deck `d1, d2, …`), the cards are dealt
round-robin — `d1, d3, …, d13` to the first player in turn order and
`d2, d4, …, d14` to the second, seven each — the next card `f` becomes the
sole discard entry and sets `currentColor`/`currentValue`, the remaining 61
cards stay as the draw pile, the turn goes to the first player in turn order
with `hasDrawnCard := false`, the phase becomes in-progress and the winner is
cleared. -/
theorem C5_startGame_roundRobin (s : GameState) (random : RandomFn) (tNow : Nat)
    (hs : LobbyReachable s) (hlen : s.players.length = 2) :
    ∃ p0 p1, s.playerOrder = [p0, p1] ∧ p0 ≠ p1 ∧
    ∃ (d1 d2 d3 d4 d5 d6 d7 d8 d9 d10 d11 d12 d13 d14 f : Card)
      (rest : List Card),
      (shuffle createDeck random).reverse =
        d1 :: d2 :: d3 :: d4 :: d5 :: d6 :: d7 :: d8 :: d9 :: d10 :: d11 :: d12 ::
          d13 :: d14 :: f :: rest ∧
      rest.length = 61 ∧
      (shuffle createDeck random).Perm createDeck ∧
      startGame s random tNow =
        ({ s with
            players := [⟨p0, [d1, d3, d5, d7, d9, d11, d13]⟩,
                        ⟨p1, [d2, d4, d6, d8, d10, d12, d14]⟩]
            drawPile := rest.reverse
            discardPile := [f]
            currentColor := some f.color
            currentValue := some f.value
            phase := .inProgress
            winnerId := none
            turn := some ⟨p0, false⟩
            updatedAt := tNow }, .ok ()) := by
  have hinv := lobby_inv hs
  rcases hps : s.players with _ | ⟨⟨p0, h0⟩, _ | ⟨⟨p1, h1⟩, _ | ⟨q2, qs⟩⟩⟩
  · rw [hps] at hlen; simp at hlen
  · rw [hps] at hlen; simp at hlen
  · have hh0 : h0 = [] := hinv.hands_empty ⟨p0, h0⟩ (by rw [hps]; simp)
    have hh1 : h1 = [] := hinv.hands_empty ⟨p1, h1⟩ (by rw [hps]; simp)
    subst hh0
    subst hh1
    have ho : s.playerOrder = [p0, p1] := by
      rw [← hinv.ids_eq, hps]
      rfl
    have hne : p0 ≠ p1 := by
      have hnd := hinv.nodup
      rw [ho] at hnd
      simpa using hnd
    have hready : s.phase = .readyToStart := hinv.phase_ready.mpr hlen
    set deck := shuffle createDeck random with hdeckdef
    have hRlen : deck.reverse.length = 76 := by
      rw [List.length_reverse, hdeckdef, shuffle_length, createDeck_length]
    obtain ⟨d1, t1, hc1, hl1⟩ := exists_cons_of_len deck.reverse 75 hRlen
    obtain ⟨d2, t2, hc2, hl2⟩ := exists_cons_of_len t1 74 hl1
    obtain ⟨d3, t3, hc3, hl3⟩ := exists_cons_of_len t2 73 hl2
    obtain ⟨d4, t4, hc4, hl4⟩ := exists_cons_of_len t3 72 hl3
    obtain ⟨d5, t5, hc5, hl5⟩ := exists_cons_of_len t4 71 hl4
    obtain ⟨d6, t6, hc6, hl6⟩ := exists_cons_of_len t5 70 hl5
    obtain ⟨d7, t7, hc7, hl7⟩ := exists_cons_of_len t6 69 hl6
    obtain ⟨d8, t8, hc8, hl8⟩ := exists_cons_of_len t7 68 hl7
    obtain ⟨d9, t9, hc9, hl9⟩ := exists_cons_of_len t8 67 hl8
    obtain ⟨d10, t10, hc10, hl10⟩ := exists_cons_of_len t9 66 hl9
    obtain ⟨d11, t11, hc11, hl11⟩ := exists_cons_of_len t10 65 hl10
    obtain ⟨d12, t12, hc12, hl12⟩ := exists_cons_of_len t11 64 hl11
    obtain ⟨d13, t13, hc13, hl13⟩ := exists_cons_of_len t12 63 hl12
    obtain ⟨d14, t14, hc14, hl14⟩ := exists_cons_of_len t13 62 hl13
    obtain ⟨f, rest, hc15, hlrest⟩ := exists_cons_of_len t14 61 hl14
    have hR : deck.reverse =
        d1 :: d2 :: d3 :: d4 :: d5 :: d6 :: d7 :: d8 :: d9 :: d10 :: d11 :: d12 ::
          d13 :: d14 :: f :: rest := by
      rw [hc1, hc2, hc3, hc4, hc5, hc6, hc7, hc8, hc9, hc10, hc11, hc12, hc13,
        hc14, hc15]
    have hdeal : dealRounds CARDS_PER_PLAYER s deck =
        ({ s with players := [⟨p0, [d1, d3, d5, d7, d9, d11, d13]⟩,
                              ⟨p1, [d2, d4, d6, d8, d10, d12, d14]⟩] },
         (f :: rest).reverse, true) := by
      rw [dealRounds_rev_eq]
      unfold CARDS_PER_PLAYER
      rw [hR]
      rw [dealRoundsRev_seven hne s d1 d2 d3 d4 d5 d6 d7 d8 d9 d10 d11 d12 d13 d14
        (f :: rest) hps ho]
    have hpop : drawTopCard ((f :: rest).reverse) = (some f, rest.reverse) :=
      drawTopCard_rev_cons (by simp)
    refine ⟨p0, p1, ho, hne, d1, d2, d3, d4, d5, d6, d7, d8, d9, d10, d11, d12,
      d13, d14, f, rest, hR, hlrest, shuffle_perm createDeck random, ?_⟩
    unfold startGame
    rw [if_neg (by omega), if_neg (by simp [hready])]
    simp only [hdeal, hpop, ho, List.getD_cons_zero]
  · rw [hps] at hlen
    simp at hlen

theorem C5_startGame_roundRobin_witness :
    demoLobby.players.length = 2 ∧
    (∃ p0 p1, demoLobby.playerOrder = [p0, p1] ∧ p0 ≠ p1 ∧
    ∃ (d1 d2 d3 d4 d5 d6 d7 d8 d9 d10 d11 d12 d13 d14 f : Card)
      (rest : List Card),
      (shuffle createDeck rand0).reverse =
        d1 :: d2 :: d3 :: d4 :: d5 :: d6 :: d7 :: d8 :: d9 :: d10 :: d11 :: d12 ::
          d13 :: d14 :: f :: rest ∧
      rest.length = 61 ∧
      (shuffle createDeck rand0).Perm createDeck ∧
      startGame demoLobby rand0 2 =
        ({ demoLobby with
            players := [⟨p0, [d1, d3, d5, d7, d9, d11, d13]⟩,
                        ⟨p1, [d2, d4, d6, d8, d10, d12, d14]⟩]
            drawPile := rest.reverse
            discardPile := [f]
            currentColor := some f.color
            currentValue := some f.value
            phase := .inProgress
            winnerId := none
            turn := some ⟨p0, false⟩
            updatedAt := 2 }, .ok ())) :=
  ⟨rfl, C5_startGame_roundRobin demoLobby rand0 2 demoLobby_lobbyReachable rfl⟩

theorem dealRound_phase : ∀ (pids : List PlayerId) (s : GameState) (deck : List Card),
    (dealRound pids s deck).1.phase = s.phase := by
  intro pids
  induction pids with
  | nil => intro s deck; rfl
  | cons pid rest ih =>
    intro s deck
    unfold dealRound
    rcases hdt : drawTopCard deck with ⟨oc, deck'⟩
    cases oc with
    | none => rfl
    | some card =>
      have h2 : (giveCard s pid card).phase = s.phase := by
        obtain ⟨ps, hgc, -⟩ := giveCard_shape s pid card
        rw [hgc]
      exact (ih (giveCard s pid card) deck').trans h2

theorem dealRounds_phase : ∀ (n : Nat) (s : GameState) (deck : List Card),
    (dealRounds n s deck).1.phase = s.phase := by
  intro n
  induction n with
  | zero => intro s deck; rfl
  | succ n ih =>
    intro s deck
    unfold dealRounds
    rcases hd : dealRound s.playerOrder s deck with ⟨s1, deck1, ok⟩
    have h1 : s1.phase = s.phase := by
      have h := dealRound_phase s.playerOrder s deck
      rw [hd] at h
      exact h
    cases ok
    · exact h1
    · exact (ih s1 deck1).trans h1

theorem startGame_phaseIdx (s : GameState) (random : RandomFn) (t : Nat) :
    phaseIdx s.phase ≤ phaseIdx (startGame s random t).1.phase := by
  unfold startGame
  split
  · exact Nat.le_refl _
  · split
    · exact Nat.le_refl _
    · rename_i hlen hphase
      simp only []
      split
      · rename_i state' d heq
        have h := dealRounds_phase CARDS_PER_PLAYER s (shuffle createDeck random)
        rw [heq] at h
        have h2 : state'.phase = s.phase := h
        show phaseIdx s.phase ≤ phaseIdx state'.phase
        rw [h2]
      · rename_i state' deck' heq
        split
        · rename_i d heq2
          have h := dealRounds_phase CARDS_PER_PLAYER s (shuffle createDeck random)
          rw [heq] at h
          have h2 : state'.phase = s.phase := h
          show phaseIdx s.phase ≤ phaseIdx state'.phase
          rw [h2]
        · rename_i c deck2 heq2
          have h3 : phaseIdx s.phase ≤ 2 := by
            cases hsp : s.phase
            · decide
            · decide
            · decide
            · exact absurd (Or.inr hsp) hphase
          exact h3

theorem playCardSuccState_phase (s : GameState) (pid : PlayerId) (i k t : Nat) :
    (playCardSuccState s pid i k t).phase = .finished ∨
    (playCardSuccState s pid i k t).phase = s.phase := by
  unfold playCardSuccState
  simp only []
  split
  · exact Or.inl rfl
  · right
    show (advanceTurn _).phase = s.phase
    rw [advanceTurn_phase]

theorem drawCard_phase (s : GameState) (pid : PlayerId) (random : RandomFn)
    (t : Nat) : (drawCard s pid random t).1.phase = s.phase := by
  have hph1 : (if s.drawPile.length = 0 then replenishDrawPile s random
      else (s, none)).1.phase = s.phase := by
    by_cases hd : s.drawPile.length = 0
    · rw [if_pos hd]
      rcases hre : replenishDrawPile s random with ⟨s1, x⟩
      have h := (replenish_players hre).2.1
      exact h
    · rw [if_neg hd]
  unfold drawCard
  split
  · rfl
  · split
    · rfl
    · split
      · rfl
      · split
        · rfl
        · split
          · rfl
          · simp only []
            split
            · exact hph1
            · split
              · exact hph1
              · split
                · exact hph1
                · exact hph1

theorem playCard_phaseIdx (s : GameState) (pid : PlayerId) (cid : String)
    (t : Nat) : phaseIdx s.phase ≤ phaseIdx (playCard s pid cid t).1.phase := by
  rcases h : playCard s pid cid t with ⟨s', r⟩
  cases r with
  | err e =>
    rw [playCard_err h]
  | ok u =>
    cases u
    obtain ⟨hph, tn, ht, hact, i, hfind, k, hfk, hplay, hs'⟩ := playCard_ok_inv h
    show phaseIdx s.phase ≤ phaseIdx s'.phase
    rw [hs']
    rcases playCardSuccState_phase s pid i k t with hfin | hsame
    · rw [hfin, hph]
      decide
    · rw [hsame]

/-- C6: over reachable states the phase index (waiting-for-player 0,
ready-to-start 1, in-progress 2, finished 3) never decreases under any engine
operation, and a finished game is terminal: every operation returns the state
unchanged together with an error. -/
theorem C6_phase_forward_finished_terminal (s : GameState) (op : EngineOp)
    (t : Nat) (hr : EngineReachable s) :
    phaseIdx s.phase ≤ phaseIdx (runOp op s t).1.phase ∧
    (s.phase = .finished →
      (runOp op s t).1 = s ∧ ((runOp op s t).2.isSome = true)) := by
  constructor
  · cases op with
    | join pid =>
      show phaseIdx s.phase ≤ phaseIdx (joinGame s pid t).1.phase
      rcases h : joinGame s pid t with ⟨s', r⟩
      cases r with
      | err e =>
        rw [joinGame_err h]
      | ok u =>
        cases u
        obtain ⟨hpre, hnf, hlt, hs'⟩ := joinGame_ok_inv h
        rcases hr with hlob | hstarted
        · have hinv := lobby_inv hlob
          have hwait : s.phase = .waitingForPlayer := by
            rcases hinv.phase_lobby with h1 | h1
            · exact h1
            · exact absurd (hinv.phase_ready.mp h1) (by omega)
          rw [hwait]
          exact Nat.zero_le _
        · have hst := (reachable_inv hstarted).started
          rcases hst with h1 | h1 <;> rcases hpre with h2 | h2 <;>
            rw [h1] at h2 <;> cases h2
    | start random => exact startGame_phaseIdx s random t
    | play pid cid => exact playCard_phaseIdx s pid cid t
    | draw pid random =>
      show phaseIdx s.phase ≤ phaseIdx (drawCard s pid random t).1.phase
      rw [drawCard_phase]
    | pass pid =>
      show phaseIdx s.phase ≤ phaseIdx (passTurn s pid t).1.phase
      rcases h : passTurn s pid t with ⟨s', r⟩
      cases r with
      | err e =>
        rw [passTurn_err h]
      | ok u =>
        cases u
        obtain ⟨hph, tn, ht, hact, hdrawn, hs'⟩ := passTurn_ok_inv h
        show phaseIdx s.phase ≤ phaseIdx s'.phase
        rw [hs']
        show phaseIdx s.phase ≤ phaseIdx (advanceTurn s).phase
        rw [advanceTurn_phase]
  · intro hfin
    cases op with
    | join pid =>
      have hj : joinGame s pid t =
          (s, .err ⟨.GAME_ALREADY_STARTED, "Партия уже запущена."⟩) := by
        unfold joinGame
        rw [if_pos (by rw [hfin]; exact ⟨by decide, by decide⟩)]
      constructor
      · show (joinGame s pid t).1 = s
        rw [hj]
      · show ((joinGame s pid t).2.errorOpt).isSome = true
        rw [hj]
        rfl
    | start random =>
      obtain ⟨e, hst⟩ : ∃ e, startGame s random t = (s, .err e) := by
        by_cases hlen : s.players.length < 2
        · refine ⟨⟨.NOT_ENOUGH_PLAYERS, "Нужно два игрока для старта."⟩, ?_⟩
          unfold startGame
          rw [if_pos hlen]
        · refine ⟨⟨.GAME_ALREADY_STARTED, "Партия уже запущена."⟩, ?_⟩
          unfold startGame
          rw [if_neg hlen, if_pos (Or.inr hfin)]
      constructor
      · show (startGame s random t).1 = s
        rw [hst]
      · show ((startGame s random t).2.errorOpt).isSome = true
        rw [hst]
        rfl
    | play pid cid =>
      have hp : playCard s pid cid t =
          (s, .err ⟨.GAME_NOT_READY, "Партия ещё не запущена."⟩) := by
        unfold playCard
        rw [if_pos (by rw [hfin]; decide)]
      constructor
      · show (playCard s pid cid t).1 = s
        rw [hp]
      · show ((playCard s pid cid t).2.errorOpt).isSome = true
        rw [hp]
        rfl
    | draw pid random =>
      have hd : drawCard s pid random t =
          (s, .err ⟨.GAME_NOT_READY, "Партия ещё не запущена."⟩) := by
        unfold drawCard
        rw [if_pos (by rw [hfin]; decide)]
      constructor
      · show (drawCard s pid random t).1 = s
        rw [hd]
      · show ((drawCard s pid random t).2.errorOpt).isSome = true
        rw [hd]
        rfl
    | pass pid =>
      have hp : passTurn s pid t =
          (s, .err ⟨.GAME_NOT_READY, "Партия ещё не запущена."⟩) := by
        unfold passTurn
        rw [if_pos (by rw [hfin]; decide)]
      constructor
      · show (passTurn s pid t).1 = s
        rw [hp]
      · show ((passTurn s pid t).2.errorOpt).isSome = true
        rw [hp]
        rfl

theorem C6_phase_forward_finished_terminal_witness :
    (phaseIdx demoLobby.phase ≤
      phaseIdx (runOp (.join "carol") demoLobby 5).1.phase ∧
    (demoLobby.phase = .finished →
      (runOp (.join "carol") demoLobby 5).1 = demoLobby ∧
      ((runOp (.join "carol") demoLobby 5).2.isSome = true))) :=
  C6_phase_forward_finished_terminal demoLobby (.join "carol") 5
    (Or.inl demoLobby_lobbyReachable)

/-- The reshuffle scenario of the test suite: empty draw pile, three discards,
the active player holds a single unplayable card. -/
def reshuffleState : GameState :=
  { roomId := "room-1"
    phase := .inProgress
    players := [⟨"alice", [⟨"a-2", .green, 1⟩]⟩, ⟨"bob", [⟨"b-1", .yellow, 9⟩]⟩]
    playerOrder := ["alice", "bob"]
    drawPile := []
    discardPile := [⟨"d-aux-1", .yellow, 8⟩, ⟨"d-aux-2", .blue, 2⟩, ⟨"d-1", .red, 5⟩]
    currentColor := some .red
    currentValue := some 5
    turn := some ⟨"alice", false⟩
    winnerId := none
    createdAt := 1000
    updatedAt := 1000 }

/-- `reshuffleState` right after `replenishDrawPile` with the constant-zero
source: the old top stays as the single discard, the other two cards are
shuffled (swapped) into the draw pile. -/
def reshuffleCore : GameState :=
  { reshuffleState with
      drawPile := [⟨"d-aux-2", .blue, 2⟩, ⟨"d-aux-1", .yellow, 8⟩]
      discardPile := [⟨"d-1", .red, 5⟩] }

/-- C7, counterexample: in the claim's own scenario (in-progress, active
player with no playable card and `hasDrawnCard = false`, empty draw pile,
exactly three discards) `drawCard` succeeds via reshuffle but leaves a draw
pile of length 1, not 2: the reshuffle moves two cards into the draw pile and
the draw itself immediately removes one of them. The discard pile keeps the
old top as its single entry, as the claim says. -/
theorem C7_reshuffle_counterexample :
    reshuffleState.phase = .inProgress ∧
    reshuffleState.turn = some ⟨"alice", false⟩ ∧
    playableCheck (listPlayableCards reshuffleState "alice") = false ∧
    reshuffleState.drawPile = [] ∧
    reshuffleState.discardPile.length = 3 ∧
    reshuffleState.discardPile.getLast? = some ⟨"d-1", .red, 5⟩ ∧
    ∃ s' c b, drawCard reshuffleState "alice" rand0 5 = (s', .ok (c, b)) ∧
      s'.discardPile = [⟨"d-1", .red, 5⟩] ∧
      s'.drawPile.length = 1 ∧
      s'.drawPile.length ≠ 2 := by
  refine ⟨rfl, rfl, rfl, rfl, rfl, rfl, ?_⟩
  have hshuf : shuffle (reshuffleState.discardPile.dropLast) rand0 =
      [(⟨"d-aux-2", .blue, 2⟩ : Card), ⟨"d-aux-1", .yellow, 8⟩] := by
    show shuffleAux rand0 0 1
      [(⟨"d-aux-1", .yellow, 8⟩ : Card), ⟨"d-aux-2", .blue, 2⟩] = _
    show shuffleAux rand0 1 0
      (listSwap [(⟨"d-aux-1", .yellow, 8⟩ : Card), ⟨"d-aux-2", .blue, 2⟩] 1
        (randIndex (rand0 0) 2)) = _
    rw [randIndex_rand0]
    rfl
  have hrepl : (if reshuffleState.drawPile.length = 0
      then replenishDrawPile reshuffleState rand0
      else (reshuffleState, none)) = (reshuffleCore, none) := by
    rw [if_pos (show reshuffleState.drawPile.length = 0 from rfl)]
    unfold replenishDrawPile
    rw [if_neg (by decide)]
    simp only [hshuf]
    rfl
  have heq := @drawCard_ok_fwd reshuffleState "alice" rand0 5 ⟨"alice", false⟩
    reshuffleCore _ _ _ rfl rfl rfl rfl rfl hrepl rfl rfl
  exact ⟨_, _, _, heq, rfl, rfl, by decide⟩

/-- C7, amended: under the claim's conditions (in-progress, the seated active
player has not drawn and has no playable card, empty draw pile, exactly three
discards) `drawCard` succeeds via reshuffle and the resulting state has draw
pile length 1 (the two reshuffled cards minus the one drawn), discard pile
equal to the single pre-reshuffle top card, whose identity is preserved. -/
theorem C7_reshuffle_amended (s : GameState) (pid : PlayerId) (random : RandomFn)
    (t : Nat) (tn : TurnState)
    (hph : s.phase = .inProgress) (ht : s.turn = some tn)
    (hact : tn.activePlayerId = pid) (hdrawn : tn.hasDrawnCard = false)
    (hnoplay : playableCheck (listPlayableCards s pid) = false)
    (hempty : s.drawPile = []) (hthree : s.discardPile.length = 3)
    (hseated : (findPlayerIndex s pid).isSome) :
    ∃ s' c b, drawCard s pid random t = (s', .ok (c, b)) ∧
      s'.drawPile.length = 1 ∧
      s'.discardPile = [s.discardPile.getD (s.discardPile.length - 1) defaultCard] ∧
      s'.discardPile.getLast? = s.discardPile.getLast? := by
  set top := s.discardPile.getD (s.discardPile.length - 1) defaultCard with htop
  set s1 : GameState := { s with
      drawPile := shuffle s.discardPile.dropLast random
      discardPile := [top] } with hs1
  have hrepl0 : replenishDrawPile s random = (s1, none) := by
    unfold replenishDrawPile
    rw [if_neg (by omega)]
  have hrepl : (if s.drawPile.length = 0 then replenishDrawPile s random
      else (s, none)) = (s1, none) := by
    rw [if_pos (by rw [hempty]; rfl)]
    exact hrepl0
  have hlen1 : s1.drawPile.length = 2 := by
    show (shuffle s.discardPile.dropLast random).length = 2
    rw [shuffle_length, List.length_dropLast, hthree]
  have hne1 : s1.drawPile ≠ [] := by
    intro hnil
    rw [hnil] at hlen1
    simp at hlen1
  have hgl := getLast?_eq_getD defaultCard hne1
  have hpop : drawTopCard s1.drawPile =
      (some (s1.drawPile.getD (s1.drawPile.length - 1) defaultCard),
       s1.drawPile.dropLast) := by
    unfold drawTopCard
    rw [hgl]
  have hcongr : findPlayerIndex s1 pid = findPlayerIndex s pid :=
    findPlayerIndex_players_congr rfl pid
  obtain ⟨i, hi⟩ := Option.isSome_iff_exists.mp hseated
  have hi1 : findPlayerIndex s1 pid = some i := by rw [hcongr, hi]
  have heq := @drawCard_ok_fwd s pid random t tn s1 _ _ i
    hph ht hact hdrawn hnoplay hrepl hpop hi1
  refine ⟨_, _, _, heq, ?_, ?_, ?_⟩
  · show (s1.drawPile.dropLast).length = 1
    rw [List.length_dropLast, hlen1]
  · show s1.discardPile = [top]
    rfl
  · show ([top] : List Card).getLast? = s.discardPile.getLast?
    have hdne : s.discardPile ≠ [] := by
      intro h0
      rw [h0] at hthree
      simp at hthree
    rw [getLast?_eq_getD (l := s.discardPile) defaultCard hdne, htop]
    rfl

theorem C7_reshuffle_amended_witness :
    reshuffleState.phase = .inProgress ∧
    reshuffleState.turn = some ⟨"alice", false⟩ ∧
    playableCheck (listPlayableCards reshuffleState "alice") = false ∧
    reshuffleState.drawPile = [] ∧
    reshuffleState.discardPile.length = 3 ∧
    (findPlayerIndex reshuffleState "alice").isSome = true ∧
    (∃ s' c b, drawCard reshuffleState "alice" rand0 7 = (s', .ok (c, b)) ∧
      s'.drawPile.length = 1 ∧
      s'.discardPile = [reshuffleState.discardPile.getD
        (reshuffleState.discardPile.length - 1) defaultCard] ∧
      s'.discardPile.getLast? = reshuffleState.discardPile.getLast?) :=
  ⟨rfl, rfl, rfl, rfl, rfl, rfl,
    C7_reshuffle_amended reshuffleState "alice" rand0 7 ⟨"alice", false⟩
      rfl rfl rfl rfl rfl rfl rfl rfl⟩

theorem errorOpt_isSome {α : Type} (r : Result α)
    (h : r.errorOpt.isSome = true) : ∃ e, r = .err e := by
  cases r with
  | ok v => simp [Result.errorOpt] at h
  | err e => exact ⟨e, rfl⟩

/-- C8: failure atomicity — from any engine-reachable state, an operation that
returns an error leaves the state exactly as it was. -/
theorem C8_failure_atomicity (s : GameState) (op : EngineOp) (t : Nat)
    (hr : EngineReachable s) (h : (runOp op s t).2.isSome = true) :
    (runOp op s t).1 = s := by
  cases op with
  | join pid =>
    simp only [runOp] at h ⊢
    obtain ⟨e, he⟩ := errorOpt_isSome _ h
    have hpair : joinGame s pid t = ((joinGame s pid t).1, .err e) := by
      rw [← he]
    exact joinGame_err hpair
  | start random =>
    simp only [runOp] at h ⊢
    obtain ⟨e, he⟩ := errorOpt_isSome _ h
    rcases hr with hlob | hstarted
    · have hinv := lobby_inv hlob
      by_cases hlen : s.players.length < 2
      · have hh : startGame s random t =
            (s, .err ⟨.NOT_ENOUGH_PLAYERS, "Нужно два игрока для старта."⟩) := by
          unfold startGame
          rw [if_pos hlen]
        rw [hh]
      · have h2 : 2 ≤ s.players.length := by omega
        obtain ⟨s1, deck', c, heq, -, -, -⟩ := startGame_lobby_eq hinv h2 random t
        rw [heq] at he
        simp at he
    · have hst := (reachable_inv hstarted).started
      by_cases hlen : s.players.length < 2
      · have hh : startGame s random t =
            (s, .err ⟨.NOT_ENOUGH_PLAYERS, "Нужно два игрока для старта."⟩) := by
          unfold startGame
          rw [if_pos hlen]
        rw [hh]
      · have hh : startGame s random t =
            (s, .err ⟨.GAME_ALREADY_STARTED, "Партия уже запущена."⟩) := by
          unfold startGame
          rw [if_neg hlen, if_pos (show s.phase = GamePhase.inProgress ∨
            s.phase = GamePhase.finished from hst)]
        rw [hh]
  | play pid cid =>
    simp only [runOp] at h ⊢
    obtain ⟨e, he⟩ := errorOpt_isSome _ h
    have hpair : playCard s pid cid t = ((playCard s pid cid t).1, .err e) := by
      rw [← he]
    exact playCard_err hpair
  | draw pid random =>
    simp only [runOp] at h ⊢
    obtain ⟨e, he⟩ := errorOpt_isSome _ h
    have hpair : drawCard s pid random t =
        ((drawCard s pid random t).1, .err e) := by
      rw [← he]
    exact drawCard_err_of_reachable hr hpair
  | pass pid =>
    simp only [runOp] at h ⊢
    obtain ⟨e, he⟩ := errorOpt_isSome _ h
    have hpair : passTurn s pid t = ((passTurn s pid t).1, .err e) := by
      rw [← he]
    exact passTurn_err hpair

theorem C8_failure_atomicity_witness :
    (runOp (.play "bob" "b-1") demoLobby 5).2.isSome = true ∧
    (runOp (.play "bob" "b-1") demoLobby 5).1 = demoLobby :=
  ⟨rfl, C8_failure_atomicity demoLobby (.play "bob" "b-1") 5
    (Or.inl demoLobby_lobbyReachable) rfl⟩

theorem shuffleAux_congr {α : Type} (r1 r2 : RandomFn)
    (hagree : ∀ k, r1 k = r2 k) :
    ∀ (i k : Nat) (l : List α), shuffleAux r1 k i l = shuffleAux r2 k i l := by
  intro i
  induction i with
  | zero => intro k l; rfl
  | succ i ih =>
    intro k l
    show shuffleAux r1 (k + 1) i (listSwap l (i + 1) (randIndex (r1 k) (i + 2))) =
      shuffleAux r2 k (i + 1) l
    rw [hagree k]
    exact ih (k + 1) (listSwap l (i + 1) (randIndex (r2 k) (i + 2)))

/-- C9: `shuffle` is deterministic under a fixed source — its output depends
only on the input sequence and the values the source yields, so two calls with
the same input and pointwise-equal sources return the same output — and that
output is a permutation of the (unmutated, since the embedding models the
TS copy `[...items]` purely) input sequence; this holds for every source with
values in [0, 1). -/
theorem C9_shuffle_deterministic_perm (items : List Card) (random : RandomFn)
    (hr : ∀ k, 0 ≤ random k ∧ random k < 1) :
    (∀ random2 : RandomFn, (∀ k, random k = random2 k) →
      shuffle items random = shuffle items random2) ∧
    (shuffle items random).Perm items := by
  constructor
  · intro random2 hagree
    exact shuffleAux_congr random random2 hagree (items.length - 1) 0 items
  · exact shuffle_perm items random

theorem C9_shuffle_deterministic_perm_witness :
    (∀ k, (0 : ℚ) ≤ rand0 k ∧ rand0 k < 1) ∧
    ((∀ random2 : RandomFn, (∀ k, rand0 k = random2 k) →
      shuffle createDeck rand0 = shuffle createDeck random2) ∧
    (shuffle createDeck rand0).Perm createDeck) :=
  ⟨fun k => ⟨le_refl 0, by unfold rand0; norm_num⟩,
   C9_shuffle_deterministic_perm createDeck rand0
     (fun k => ⟨le_refl 0, by unfold rand0; norm_num⟩)⟩
